import Mathlib

/-!
Verification of the SportsRank odds-generator core (tools/odds_generator).

This file shallowly embeds the Python modules `selector.py`, `cli.py`,
`anchoring.py`, `featured_selector.py` and `models.py` into Lean:

* Python strings are Lean `String`s; `str.strip/lower/replace` and the
  substring test (`in`) are re-implemented character-by-character.
* Python `float` arithmetic on the score constants is embedded as exact
  unnormalised rationals (`PyF`, a pair of integers): every score expression
  in the source combines decimal literals by `+ - * /` and comparisons, and
  on concrete inputs used in this development the IEEE and exact values tie
  and order identically.
* `hashlib.sha256` (standard library, external to the repository) is threaded
  as an abstract parameter `h : String → PyF` of the ranking functions; no
  statement here depends on its values.
* Python's `sorted` (a stable sort by key) is embedded as
  `List.insertionSort` with the corresponding lexicographic key order;
  `insertionSort` is a stable sort, and a stable sort by a given total
  preorder is unique, so this is extensionally the same function.
* `collections.Counter` cells are recovered as counts over the selection
  prefix: `register_candidate` increments exactly one counter per appended
  candidate, so each counter equals a `countP` of the selected list (the
  one divergence — `tennis_daily_match_counts` is only written in daily
  mode — is unobservable, because those counters are only read in daily
  mode).
-/

namespace SportsRank

/-! ### Python string primitives -/

/-- ASCII whitespace as stripped by `str.strip()`. -/
def pySpaceChar (c : Char) : Bool :=
  c = ' ' || c = '\t' || c = '\n' || c = '\r' || c.val = 11 || c.val = 12

/-- `str.strip()` on the underlying character list. -/
def pyStripData (l : List Char) : List Char :=
  ((l.dropWhile pySpaceChar).reverse.dropWhile pySpaceChar).reverse

/-- `value.strip()`. -/
def pyStrip (s : String) : String := ⟨pyStripData s.data⟩

/-- `value.lower()` (character-wise). -/
def pyLower (s : String) : String := ⟨s.data.map Char.toLower⟩

/-- `value.replace("_", " ")` (single-character pattern, so character-wise). -/
def pyReplaceUnderscore (s : String) : String :=
  ⟨s.data.map (fun c => if c = '_' then ' ' else c)⟩

/-- `value.replace(" ", "_")` (used by `_football_league_key`). -/
def pyReplaceSpaceUnderscore (s : String) : String :=
  ⟨s.data.map (fun c => if c = ' ' then '_' else c)⟩

/-- `needle.isPrefixOf hay` on character lists. -/
def prefixOfData : List Char → List Char → Bool
  | [], _ => true
  | _ :: _, [] => false
  | a :: as, b :: bs => a = b && prefixOfData as bs

/-- Python's substring test `needle in hay` on character lists. -/
def containsSubData (needle : List Char) : List Char → Bool
  | [] => prefixOfData needle []
  | b :: bs => prefixOfData needle (b :: bs) || containsSubData needle bs

/-- Python's substring test `needle in hay` for strings. -/
def containsSub (needle hay : String) : Bool :=
  containsSubData needle.data hay.data

/-! ### Generic lexicographic comparison (Python tuple/str `<`)

Python compares strings and tuples lexicographically; `lexLt lt` is that
strict order over lists, parameterised by the element order `lt`. -/

def lexLt (lt : α → α → Bool) : List α → List α → Bool
  | [], [] => false
  | [], _ :: _ => true
  | _ :: _, [] => false
  | a :: as, b :: bs => if lt a b then true else if lt b a then false else lexLt lt as bs

/-- The non-strict companion of `lexLt` (used as the `sorted` key order). -/
def lexLe (lt : α → α → Bool) (as bs : List α) : Bool := !(lexLt lt bs as)

/-- A strict-order law package: asymmetry, transitivity, and connectedness
(two unrelated values are equal). -/
structure StrictLaws (lt : α → α → Bool) : Prop where
  asymm : ∀ a b, lt a b = true → lt b a = false
  trans : ∀ a b c, lt a b = true → lt b c = true → lt a c = true
  conn : ∀ a b, lt a b = false → lt b a = false → a = b

/-- Python string `<` (code-point lexicographic). -/
def strLt (a b : String) : Bool := lexLt (fun a b : Char => decide (a < b)) a.data b.data

/-- Lexicographic `<` on tuples of strings (Python tuple comparison). -/
def strListLt (as bs : List String) : Bool := lexLt strLt as bs

/-- Lexicographic `≤` on tuples of strings (`sorted` key order). -/
def strListLe (as bs : List String) : Bool := lexLe strLt as bs

/-! ### Stable sorting (`sorted`)

`pySorted le l` is `sorted(l, key=...)` where `le` is the key order: a
stable sort by a total preorder. `List.insertionSort` inserts each earlier
element in front of later key-equal elements, which is exactly Python's
stability guarantee. -/

def pySorted (le : α → α → Bool) (l : List α) : List α :=
  List.insertionSort (fun a b => le a b = true) l

/-! ### Exact Python-float arithmetic (`PyF`)

Scores in `selector.py` are IEEE doubles built from short decimal literals.
They are embedded as exact unnormalised fractions with a positive
denominator; comparison and equality are by cross-multiplication. -/

structure PyF where
  num : Int
  den : Int
deriving DecidableEq

/-- Build a fraction with a non-negative denominator. -/
def mkPyF (n d : Int) : PyF := if d < 0 then ⟨-n, -d⟩ else ⟨n, d⟩

def pyAdd (a b : PyF) : PyF := ⟨a.num * b.den + b.num * a.den, a.den * b.den⟩

def pySub (a b : PyF) : PyF := ⟨a.num * b.den - b.num * a.den, a.den * b.den⟩

def pyMul (a b : PyF) : PyF := ⟨a.num * b.num, a.den * b.den⟩

def pyDiv (a b : PyF) : PyF := mkPyF (a.num * b.den) (a.den * b.num)

def pyAbsQ (a : PyF) : PyF := ⟨a.num.natAbs, a.den⟩

/-- `a < b` for fractions with positive denominators. -/
def qLtB (a b : PyF) : Bool := a.num * b.den < b.num * a.den

/-- `a == b` for fractions with positive denominators. -/
def qEqB (a b : PyF) : Bool := a.num * b.den = b.num * a.den

/-- `a <= b` for fractions with positive denominators. -/
def qLeB (a b : PyF) : Bool := a.num * b.den ≤ b.num * a.den

/-- Python `max(a, b)` (returns `a` when equal, as `max` keeps the first). -/
def pyMaxQ (a b : PyF) : PyF := if qLtB a b then b else a

def pyFOfNat (n : Nat) : PyF := ⟨n, 1⟩

/-! ### Data model (`models.py`) -/

/-- `CandidateOption` — an outcome label with decimal odds. -/
structure CandidateOption where
  label : String
  odds : PyF
deriving DecidableEq

/-- `CandidatePick` (models.py).  `provider_event_id` is passed by
`cli.build_candidates`; the packaged `models.py` omits its declaration, so
the field is modelled from that caller (it carries the raw provider event
id and takes part in no claim). -/
structure CandidatePick where
  candidate_id : String
  sport_key : String
  sport_slug : String
  league : String
  event : String
  event_key : String
  start_time : String
  market : String
  bookmaker : Option String
  options : List CandidateOption
  provider_event_id : Option String := none
deriving DecidableEq

/-- `CandidatePick.mean_odds` — arithmetic mean of the option odds.
(The source would raise on an empty options list; the data-model invariant
guarantees at least two options, and no claim touches the empty case.) -/
def meanOdds (c : CandidatePick) : PyF :=
  pyDiv (c.options.foldl (fun acc o => pyAdd acc o.odds) ⟨0, 1⟩) (pyFOfNat c.options.length)

/-- `Mode` — daily or weekly selection cycle. -/
inductive Mode where
  | daily
  | weekly
deriving DecidableEq

/-! ### Classification predicates (`selector.py`) -/

/-- `_normalize` — `value.strip().lower().replace("_", " ")`. -/
def normalizeTxt (s : String) : String := pyReplaceUnderscore (pyLower (pyStrip s))

/-- `_contains_any` — any keyword occurs in the normalised text. -/
def containsAnyKw (value : String) (keywords : List String) : Bool :=
  keywords.any (fun k => containsSub k (normalizeTxt value))

def footballPriorityLeagues : List (String × List String) :=
  [("La Liga", ["la liga", "spain"]),
   ("Premier League", ["premier league", "epl", "england"]),
   ("Serie A", ["serie a", "italy"]),
   ("Bundesliga", ["bundesliga", "germany"])]

def europeanFootballKeywords : List String :=
  ["champions league", "uefa champions", "europa league", "uefa europa"]

def isFootball (c : CandidatePick) : Bool := c.sport_slug = "soccer"

def isBasketball (c : CandidatePick) : Bool := c.sport_slug = "basketball"

def isTennis (c : CandidatePick) : Bool := c.sport_slug = "tennis"

def isOtherSport (c : CandidatePick) : Bool :=
  !(c.sport_slug = "soccer" || c.sport_slug = "basketball" || c.sport_slug = "tennis")

def isEuropeanFootball (c : CandidatePick) : Bool :=
  containsAnyKw c.league europeanFootballKeywords

/-- Scan of `FOOTBALL_PRIORITY_LEAGUES` used by `_football_league_priority`:
index of the first entry whose keywords match. -/
def scanLeagueIdx (normalized : String) : List (String × List String) → Nat → Option Nat
  | [], _ => none
  | (_, kws) :: rest, idx =>
    if kws.any (fun k => containsSub k normalized) then some idx
    else scanLeagueIdx normalized rest (idx + 1)

/-- Scan of `FOOTBALL_PRIORITY_LEAGUES` used by `_football_league_key`:
label of the first entry whose keywords match. -/
def scanLeagueLabel (normalized : String) : List (String × List String) → Option String
  | [] => none
  | (label, kws) :: rest =>
    if kws.any (fun k => containsSub k normalized) then
      some (pyReplaceSpaceUnderscore (pyLower label))
    else scanLeagueLabel normalized rest

/-- `_football_league_priority` — index of the first matching top-4 league,
4 for European competitions, 5 otherwise. -/
def footballLeaguePriority (league : String) : Nat :=
  let normalized := normalizeTxt league
  match scanLeagueIdx normalized footballPriorityLeagues 0 with
  | some idx => idx
  | none =>
    if europeanFootballKeywords.any (fun k => containsSub k normalized) then 4 else 5

/-- `_football_league_key` — canonical counter key for a football league. -/
def footballLeagueKey (league : String) : String :=
  let normalized := normalizeTxt league
  match scanLeagueLabel normalized footballPriorityLeagues with
  | some key => key
  | none =>
    if containsSub "champions league" normalized || containsSub "uefa champions" normalized then
      "uefa_champions_league"
    else if containsSub "europa league" normalized || containsSub "uefa europa" normalized then
      "uefa_europa_league"
    else normalized

def nbaKeywords : List String := ["nba"]

def euroleagueKeywords : List String := ["euroleague"]

def tennisWinnerKeywords : List String := ["winner", "outright", "futures", "tournament"]

def tennisAtpKeywords : List String := ["atp"]

def tennisWtaKeywords : List String := ["wta"]

def isNba (c : CandidatePick) : Bool := isBasketball c && containsAnyKw c.league nbaKeywords

def isEuroleague (c : CandidatePick) : Bool :=
  isBasketball c && containsAnyKw c.league euroleagueKeywords

def isTennisTournamentWinner (c : CandidatePick) : Bool :=
  isTennis c && (containsAnyKw c.market tennisWinnerKeywords
    || containsAnyKw c.league tennisWinnerKeywords
    || containsAnyKw c.event tennisWinnerKeywords)

def isTennisAtpWinner (c : CandidatePick) : Bool :=
  isTennisTournamentWinner c
    && (containsAnyKw c.league tennisAtpKeywords || containsAnyKw c.event tennisAtpKeywords)

def isTennisWtaWinner (c : CandidatePick) : Bool :=
  isTennisTournamentWinner c
    && (containsAnyKw c.league tennisWtaKeywords || containsAnyKw c.event tennisWtaKeywords)

def isTennisAtpContext (c : CandidatePick) : Bool :=
  containsAnyKw c.league tennisAtpKeywords || containsAnyKw c.event tennisAtpKeywords

def isTennisWtaContext (c : CandidatePick) : Bool :=
  containsAnyKw c.league tennisWtaKeywords || containsAnyKw c.event tennisWtaKeywords

def isDailyTennis (c : CandidatePick) : Bool := isTennis c && !isTennisTournamentWinner c

def isTennisAtpMatch (c : CandidatePick) : Bool := isDailyTennis c && isTennisAtpContext c

def isTennisWtaMatch (c : CandidatePick) : Bool := isDailyTennis c && isTennisWtaContext c

/-! ### Heuristic ranking (`selector.py`) -/

/-- `_candidate_sort_key` as a string tuple. -/
def candidateSortKey (c : CandidatePick) : List String :=
  [c.start_time, c.sport_slug, c.market, c.event, c.candidate_id]

/-- Non-strict canonical key order (the `sorted(..., key=_candidate_sort_key)` order). -/
def candLe (a b : CandidatePick) : Bool := strListLe (candidateSortKey a) (candidateSortKey b)

/-- Strict canonical key order (the explicit tie-break comparison). -/
def candKeyLt (a b : CandidatePick) : Bool := strListLt (candidateSortKey a) (candidateSortKey b)

/-- `_base_score`: `1 / max(|mean_odds - 2.2|, 1e-6)`. -/
def baseScore (c : CandidatePick) : PyF :=
  pyDiv ⟨1, 1⟩ (pyMaxQ (pyAbsQ (pySub (meanOdds c) ⟨22, 10⟩)) ⟨1, 1000000⟩)

/-- `_seed_tiebreak`, with the sha256-derived value `h` kept abstract
(`hashlib` is a standard-library collaborator): `0` for a missing or empty
seed, else `h("{seed}|{candidate_id}")`. -/
def seedTiebreak (h : String → PyF) (seed : Option String) (cid : String) : PyF :=
  match seed with
  | none => ⟨0, 1⟩
  | some s => if s = "" then ⟨0, 1⟩ else h (s ++ "|" ++ cid)

/-- The per-step candidate score: base + variety bonus − near-duplicate
penalty + seed tie-break × 1e-6, with the running `Counter`s carried as
multisets of recorded values. -/
def scoreOf (h : String → PyF) (seed : Option String)
    (sports markets events : List String) (c : CandidatePick) : PyF :=
  let variety := pyAdd
    (pyDiv ⟨35, 100⟩ ⟨1 + (sports.count c.sport_slug : Int), 1⟩)
    (pyDiv ⟨2, 10⟩ ⟨1 + (markets.count c.market : Int), 1⟩)
  let penalty := pyMul ⟨5, 10⟩ ⟨(events.count c.event_key : Int), 1⟩
  pyAdd (pySub (pyAdd (baseScore c) variety) penalty)
    (pyMul (seedTiebreak h seed c.candidate_id) ⟨1, 1000000⟩)

/-- One pass of the inner `for candidate in remaining` loop: keep the
strictly-better-scoring candidate, and on an exact score tie the one with
the smaller canonical key. -/
def bestCandidate (h : String → PyF) (seed : Option String)
    (sports markets events : List String) (l : List CandidatePick) : Option CandidatePick :=
  l.foldl
    (fun acc c =>
      match acc with
      | none => some c
      | some b =>
        if qLtB (scoreOf h seed sports markets events b) (scoreOf h seed sports markets events c)
        then some c
        else if qEqB (scoreOf h seed sports markets events c)
            (scoreOf h seed sports markets events b) && candKeyLt c b
        then some c
        else some b)
    none

/-- The greedy selection loop of `_heuristic_ranked_order`; the fuel is the
iteration count `min(limit, len(remaining))` fixed before the loop. -/
def rankLoop (h : String → PyF) (seed : Option String) :
    Nat → List CandidatePick → List String → List String → List String → List CandidatePick
  | 0, _, _, _, _ => []
  | fuel + 1, remaining, sports, markets, events =>
    match bestCandidate h seed sports markets events remaining with
    | none => []
    | some b =>
      b :: rankLoop h seed fuel
        (remaining.filter (fun c => c.candidate_id ≠ b.candidate_id))
        (b.sport_slug :: sports) (b.market :: markets) (b.event_key :: events)

/-- `_heuristic_ranked_order`. -/
def heuristicRankedOrder (h : String → PyF) (candidates : List CandidatePick)
    (limit : Nat) (seed : Option String) : List CandidatePick :=
  let remaining := pySorted candLe candidates
  rankLoop h seed (min limit remaining.length) remaining [] [] []

/-! ### Portfolio allocator (`_apply_mode_portfolio_with_mode`)

The source mutates `Counter` state through `register_candidate`; each
counter cell equals a count over the selected list (see the header note),
so the state is just the selected list plus accumulated warnings. -/

def dailyFootballTarget : Nat := 5
def dailyNbaTarget : Nat := 5
def dailyTennisMatchAtpTarget : Nat := 2
def dailyTennisMatchWtaTarget : Nat := 2
def dailyTennisWinnerTarget : Nat := 2
def dailyOthersTarget : Nat := 5

def weeklyFootballTarget : Nat := 2
def weeklyNbaTarget : Nat := 2
def weeklyEuroleagueTarget : Nat := 2
def weeklyTennisWinnerTarget : Nat := 2
def weeklyOthersTarget : Nat := 5

/-- `football_league_counts[_football_league_key(league)]`. -/
def footballLeagueCount (sel : List CandidatePick) (key : String) : Nat :=
  sel.countP (fun c => isFootball c && footballLeagueKey c.league = key)

/-- `basketball_counts["nba"]`. -/
def nbaCount (sel : List CandidatePick) : Nat := sel.countP isNba

/-- `basketball_counts["euroleague"]` (the `elif` branch excludes NBA). -/
def euroleagueCount (sel : List CandidatePick) : Nat :=
  sel.countP (fun c => !isNba c && isEuroleague c)

/-- `tennis_winner_counts["atp"]`. -/
def atpWinnerCount (sel : List CandidatePick) : Nat := sel.countP isTennisAtpWinner

/-- `tennis_winner_counts["wta"]` (the `elif` branch excludes ATP winners). -/
def wtaWinnerCount (sel : List CandidatePick) : Nat :=
  sel.countP (fun c => !isTennisAtpWinner c && isTennisWtaWinner c)

/-- `tennis_daily_match_counts["atp"]`. -/
def atpMatchCount (sel : List CandidatePick) : Nat := sel.countP isTennisAtpMatch

/-- `tennis_daily_match_counts["wta"]` (the `elif` branch excludes ATP matches). -/
def wtaMatchCount (sel : List CandidatePick) : Nat :=
  sel.countP (fun c => !isTennisAtpMatch c && isTennisWtaMatch c)

/-- `can_add_candidate`. -/
def canAddCandidate (mode : Mode) (sel : List CandidatePick) (c : CandidatePick) : Bool :=
  if isFootball c then
    footballLeagueCount sel (footballLeagueKey c.league) <
      (if mode = Mode.daily then 5 else 2)
  else if isBasketball c then
    if isNba c then
      nbaCount sel < (if mode = Mode.daily then dailyNbaTarget else weeklyNbaTarget)
    else if isEuroleague c then
      mode = Mode.weekly && euroleagueCount sel < weeklyEuroleagueTarget
    else false
  else if isTennis c then
    if isTennisTournamentWinner c then
      if isTennisAtpWinner c then atpWinnerCount sel < 1
      else if isTennisWtaWinner c then wtaWinnerCount sel < 1
      else false
    else if !(mode = Mode.daily) then false
    else if isTennisAtpMatch c then atpMatchCount sel < dailyTennisMatchAtpTarget
    else if isTennisWtaMatch c then wtaMatchCount sel < dailyTennisMatchWtaTarget
    else false
  else true

/-- `candidate.candidate_id in selected_ids` (the id set always mirrors the
selected list). -/
def idSelected (sel : List CandidatePick) (c : CandidatePick) : Bool :=
  sel.any (fun x => x.candidate_id = c.candidate_id)

/-- The warning emitted by an under-filled `take` step. -/
def warnShortfall (label : String) (allowed taken : Nat) : String :=
  label ++ ": requested " ++ toString allowed ++ ", selected " ++ toString taken ++
    " (insufficient candidates)."

structure AllocState where
  selected : List CandidatePick
  warnings : List String
deriving DecidableEq

/-- The `for candidate in ranked_candidates` loop inside `take`. -/
def takeLoop (mode : Mode) (pred : CandidatePick → Bool) (allowed : Nat) :
    List CandidatePick → List CandidatePick → Nat → List CandidatePick × Nat
  | [], sel, taken => (sel, taken)
  | c :: rest, sel, taken =>
    if idSelected sel c then takeLoop mode pred allowed rest sel taken
    else if !pred c then takeLoop mode pred allowed rest sel taken
    else if !canAddCandidate mode sel c then takeLoop mode pred allowed rest sel taken
    else
      let sel' := sel ++ [c]
      if taken + 1 ≥ allowed then (sel', taken + 1)
      else takeLoop mode pred allowed rest sel' (taken + 1)

/-- `take(limit, label, predicate)` — skipped entirely when the limit is
spent or the overall target is met; otherwise gathers up to
`allowed = min(limit, target - len(selected))` candidates and records a
shortfall warning when it under-fills. -/
def takeQuota (mode : Mode) (target : Nat) (ranked : List CandidatePick)
    (limit : Nat) (label : String) (pred : CandidatePick → Bool)
    (st : AllocState) : AllocState × Nat :=
  if limit = 0 || st.selected.length ≥ target then (st, 0)
  else
    let allowed := min limit (target - st.selected.length)
    let res := takeLoop mode pred allowed ranked st.selected 0
    ({ selected := res.1,
       warnings :=
         if res.2 < allowed then st.warnings ++ [warnShortfall label allowed res.2]
         else st.warnings }, res.2)

/-- The daily coverage pass: one candidate for each top-4 football league. -/
def dailyCoverage (target : Nat) (ranked : List CandidatePick) :
    List (String × List String) → AllocState → AllocState
  | [], st => st
  | (label, kws) :: rest, st =>
    dailyCoverage target ranked rest
      (takeQuota Mode.daily target ranked 1
        ("daily football coverage (" ++ label ++ ")")
        (fun c => isFootball c && containsAnyKw c.league kws) st).1

/-- The daily branch of the allocation schedule. -/
def dailySchedule (target : Nat) (ranked : List CandidatePick) : AllocState :=
  let st1 := dailyCoverage target ranked footballPriorityLeagues ⟨[], []⟩
  let footballSelected := st1.selected.countP isFootball
  let eur :=
    if footballSelected < dailyFootballTarget then
      takeQuota Mode.daily target ranked (dailyFootballTarget - footballSelected)
        "daily football Europe priority"
        (fun c => isFootball c && isEuropeanFootball c) st1
    else (st1, 0)
  let footballSelected2 := footballSelected + eur.2
  let st3 :=
    if footballSelected2 < dailyFootballTarget then
      (takeQuota Mode.daily target ranked (dailyFootballTarget - footballSelected2)
        "daily football fallback" isFootball eur.1).1
    else eur.1
  let nba := takeQuota Mode.daily target ranked dailyNbaTarget "daily basketball (NBA)" isNba st3
  let atpM := takeQuota Mode.daily target ranked dailyTennisMatchAtpTarget
    "daily tennis ATP matches" isTennisAtpMatch nba.1
  let wtaM := takeQuota Mode.daily target ranked dailyTennisMatchWtaTarget
    "daily tennis WTA matches" isTennisWtaMatch atpM.1
  let atpW := takeQuota Mode.daily target ranked 1 "daily tennis winner (ATP)"
    isTennisAtpWinner wtaM.1
  let wtaW := takeQuota Mode.daily target ranked 1 "daily tennis winner (WTA)"
    isTennisWtaWinner atpW.1
  let others := takeQuota Mode.daily target ranked dailyOthersTarget
    "daily other sports mix" isOtherSport wtaW.1
  let missing := (dailyNbaTarget - nba.2) + (dailyTennisMatchAtpTarget - atpM.2)
    + (dailyTennisMatchWtaTarget - wtaM.2)
    + (dailyTennisWinnerTarget - (atpW.2 + wtaW.2))
    + (dailyOthersTarget - others.2)
  if missing = 0 then others.1
  else
    let fb := takeQuota Mode.daily target ranked missing
      "daily quota reallocation (football)" isFootball others.1
    let remaining := missing - fb.2
    if remaining = 0 then fb.1
    else
      (takeQuota Mode.daily target ranked remaining
        "daily quota reallocation (any)" (fun _ => true) fb.1).1

/-- The weekly coverage loop over the top-4 leagues (breaks once the
football target is met). -/
def weeklyCoverage (target : Nat) (ranked : List CandidatePick) :
    List (String × List String) → Nat → AllocState → AllocState × Nat
  | [], fs, st => (st, fs)
  | (label, kws) :: rest, fs, st =>
    if fs ≥ weeklyFootballTarget then (st, fs)
    else
      let r := takeQuota Mode.weekly target ranked 1
        ("weekly football coverage (" ++ label ++ ")")
        (fun c => isFootball c && containsAnyKw c.league kws) st
      weeklyCoverage target ranked rest (fs + r.2) r.1

/-- The weekly branch of the allocation schedule. -/
def weeklySchedule (target : Nat) (ranked : List CandidatePick) : AllocState :=
  let eur := takeQuota Mode.weekly target ranked 1 "weekly football (Europe priority)"
    (fun c => isFootball c && isEuropeanFootball c) ⟨[], []⟩
  let cov := weeklyCoverage target ranked footballPriorityLeagues eur.2 eur.1
  let st1 :=
    if cov.2 < weeklyFootballTarget then
      (takeQuota Mode.weekly target ranked (weeklyFootballTarget - cov.2)
        "weekly football fallback" isFootball cov.1).1
    else cov.1
  let nba := takeQuota Mode.weekly target ranked weeklyNbaTarget
    "weekly basketball (NBA)" isNba st1
  let euro := takeQuota Mode.weekly target ranked weeklyEuroleagueTarget
    "weekly basketball (Euroleague)" isEuroleague nba.1
  let atp := takeQuota Mode.weekly target ranked 1 "weekly tennis winner (ATP)"
    isTennisAtpWinner euro.1
  let wta := takeQuota Mode.weekly target ranked 1 "weekly tennis winner (WTA)"
    isTennisWtaWinner atp.1
  let winners := atp.2 + wta.2
  let wfb :=
    if winners < weeklyTennisWinnerTarget then
      takeQuota Mode.weekly target ranked (weeklyTennisWinnerTarget - winners)
        "weekly tennis winner fallback" isTennisTournamentWinner wta.1
    else (wta.1, 0)
  let winners2 := winners + wfb.2
  let others := takeQuota Mode.weekly target ranked weeklyOthersTarget
    "weekly other sports mix" isOtherSport wfb.1
  let missing := (weeklyNbaTarget - nba.2) + (weeklyEuroleagueTarget - euro.2)
    + (weeklyTennisWinnerTarget - winners2) + (weeklyOthersTarget - others.2)
  if missing = 0 then others.1
  else
    let fb := takeQuota Mode.weekly target ranked missing
      "weekly quota reallocation (football)" isFootball others.1
    let remaining := missing - fb.2
    if remaining = 0 then fb.1
    else
      (takeQuota Mode.weekly target ranked remaining
        "weekly quota reallocation (any)" (fun _ => true) fb.1).1

/-- The final `Fill with remaining best-ranked candidates until target` loop. -/
def finalFill (mode : Mode) (target : Nat) :
    List CandidatePick → List CandidatePick → List CandidatePick
  | [], sel => sel
  | c :: rest, sel =>
    if idSelected sel c then finalFill mode target rest sel
    else if !canAddCandidate mode sel c then finalFill mode target rest sel
    else
      let sel' := sel ++ [c]
      if sel'.length ≥ target then sel' else finalFill mode target rest sel'

/-- The weekly re-ordering key:
`(_football_league_priority(league), _normalize(league), start_time, event, market, candidate_id)`. -/
def weeklyFootballSortLe (a b : CandidatePick) : Bool :=
  let pa := footballLeaguePriority a.league
  let pb := footballLeaguePriority b.league
  if pa < pb then true
  else if pb < pa then false
  else strListLe [normalizeTxt a.league, a.start_time, a.event, a.market, a.candidate_id]
    [normalizeTxt b.league, b.start_time, b.event, b.market, b.candidate_id]

/-- `_order_weekly_with_football_league_priority`. -/
def orderWeeklyWithFootballLeaguePriority (selected : List CandidatePick) : List CandidatePick :=
  pySorted weeklyFootballSortLe (selected.filter isFootball)
    ++ selected.filter (fun c => !isFootball c)

/-- The allocator state after the mode schedule and the final fill,
before weekly re-ordering and truncation. -/
def allocGathered (ranked : List CandidatePick) (target : Nat) (mode : Mode) : AllocState :=
  let st := match mode with
    | Mode.daily => dailySchedule target ranked
    | Mode.weekly => weeklySchedule target ranked
  if st.selected.length < target then
    { st with selected := finalFill mode target ranked st.selected }
  else st

/-- `_apply_mode_portfolio_with_mode`. -/
def applyModePortfolioWithMode (ranked : List CandidatePick) (target : Int) (mode : Mode) :
    List CandidatePick × List String :=
  if target ≤ 0 then ([], [])
  else
    let t := target.toNat
    let st := allocGathered ranked t mode
    let sel := match mode with
      | Mode.daily => st.selected
      | Mode.weekly => orderWeeklyWithFootballLeaguePriority st.selected
    (sel.take t, st.warnings)

/-- `select_candidates_heuristic`. -/
def selectCandidatesHeuristic (h : String → PyF) (candidates : List CandidatePick)
    (target : Int) (mode : Mode) (seed : Option String) : List CandidatePick :=
  (applyModePortfolioWithMode
    (heuristicRankedOrder h candidates candidates.length seed) target mode).1

/-! ### Anchoring (`anchoring.py`)

Local datetimes are modelled by their local calendar ordinal (Python
`date.toordinal()`, ordinal 1 being a Monday); `local_now - timedelta(days=d)`
followed by `.date()` is naive day arithmetic `ordinal - d` (time-of-day and
zoneinfo conversion are collaborators outside the embedding). -/

/-- Python `date.weekday()` — 0 is Monday. -/
def pyWeekday (ordinal : Int) : Int := (ordinal - 1) % 7

/-- `daily_anchor_date` — the local calendar date itself. -/
def dailyAnchorDate (ordinal : Int) : Int := ordinal

/-- `weekly_anchor_date`. -/
def weeklyAnchorDate (ordinal : Int) : Int :=
  if pyWeekday ordinal ≤ 2 then ordinal
  else ordinal - (pyWeekday ordinal - 3)

/-- `anchor_date_for_mode` (after the UTC→local conversion). -/
def anchorDateForMode (mode : Mode) (ordinal : Int) : Int :=
  match mode with
  | Mode.daily => dailyAnchorDate ordinal
  | Mode.weekly => weeklyAnchorDate ordinal

/-! ### Deduplication (`cli.deduplicate_candidates`) -/

/-- The grouping-pass key `(candidate_id, bookmaker or "", start_time)`. -/
def dedupSortKey (c : CandidatePick) : List String :=
  [c.candidate_id, c.bookmaker.getD "", c.start_time]

def dedupLe (a b : CandidatePick) : Bool := strListLe (dedupSortKey a) (dedupSortKey b)

/-- Keep the first record per `candidate_id` (dict insertion order). -/
def keepFirstById (seen : List String) : List CandidatePick → List CandidatePick
  | [] => []
  | c :: rest =>
    if seen.contains c.candidate_id then keepFirstById seen rest
    else c :: keepFirstById (c.candidate_id :: seen) rest

/-- `deduplicate_candidates` — sort by the grouping key, keep first per id,
re-sort by the canonical output key. -/
def deduplicateCandidates (candidates : List CandidatePick) : List CandidatePick :=
  pySorted candLe (keepFirstById [] (pySorted dedupLe candidates))

/-! ### Candidate normalisation (`cli.py`)

Raw provider JSON is dynamic; the embedding covers the shapes the
normaliser distinguishes.  A `RawField` is absent/`None` (`missing`), a
string that `float()` rejects (`str`), or any value `float()` accepts —
numbers, booleans, numeric strings — carried as the exact converted value
(`num`). -/

inductive RawField where
  | missing
  | str (s : String)
  | num (q : PyF)
deriving DecidableEq

/-- Python `str(value)` as used for the bookmaker sort key (the rendering of
a numeric key is a stand-in no claim inspects). -/
def rawFieldStr : RawField → String
  | .missing => ""
  | .str s => s
  | .num q => toString q.num ++ "/" ++ toString q.den

/-- `float(value)` under `try/except (TypeError, ValueError)`. -/
def rawFieldFloat : RawField → Option PyF
  | .num q => some q
  | _ => none

structure RawOutcome where
  name : RawField
  price : RawField
  point : RawField
deriving DecidableEq

structure RawMarket where
  key : Option String
  outcomes : Option (List RawOutcome)
deriving DecidableEq

structure RawBookmaker where
  key : RawField
  markets : Option (List RawMarket)
deriving DecidableEq

/-- Python `f"{point:g}"` — a deterministic numeric rendering (its exact
text takes part in no claim). -/
def formatPointG (q : PyF) : String := toString q.num ++ "g" ++ toString q.den

/-- `format_outcome_label`. -/
def formatOutcomeLabel (marketKey : String) (o : RawOutcome) : Option String :=
  match o.name with
  | .str s =>
    if pyStrip s = "" then none
    else if (marketKey = "totals" || marketKey = "spreads") && o.point ≠ RawField.missing then
      match rawFieldFloat o.point with
      | some q => some (pyStrip s ++ " " ++ formatPointG q)
      | none => some (pyStrip s)
    else some (pyStrip s)
  | _ => none

/-- The outcome-collection loop: keep outcomes with a valid label, a
convertible price and odds above 1.01, collapsing duplicate labels (first
occurrence wins). -/
def collectOptions (marketKey : String) : List RawOutcome → List String → List CandidateOption
  | [], _ => []
  | o :: rest, seen =>
    match formatOutcomeLabel marketKey o with
    | none => collectOptions marketKey rest seen
    | some label =>
      match rawFieldFloat o.price with
      | none => collectOptions marketKey rest seen
      | some odds =>
        if qLeB odds ⟨101, 100⟩ then collectOptions marketKey rest seen
        else if seen.contains label then collectOptions marketKey rest seen
        else ⟨label, odds⟩ :: collectOptions marketKey rest (label :: seen)

/-- The options one bookmaker offers for a market (empty when the markets
value is not a list, no block matches, or the outcomes value is not a
list — all `continue` cases in the source). -/
def bookmakerOptions (marketKey : String) (b : RawBookmaker) : List CandidateOption :=
  match b.markets with
  | none => []
  | some markets =>
    match markets.find? (fun m => m.key = some marketKey) with
    | none => []
    | some mb =>
      match mb.outcomes with
      | none => []
      | some outs => collectOptions marketKey outs []

/-- `str(bookmaker_key) if bookmaker_key else None` (falsy keys yield `None`). -/
def pyBookmakerKey : RawField → Option String
  | .missing => none
  | .str s => if s = "" then none else some s
  | .num q => if q.num = 0 then none else some (rawFieldStr (.num q))

/-- The bookmaker iteration order: `sorted(bookmakers, key=lambda b: str(b.get("key", "")))`. -/
def bookmakerSortLe (a b : RawBookmaker) : Bool :=
  strListLe [rawFieldStr a.key] [rawFieldStr b.key]

/-- The `for bookmaker in sorted(...)` loop: first bookmaker with at least
two valid outcomes wins. -/
def chooseLoop (marketKey : String) : List RawBookmaker → Option String × List CandidateOption
  | [] => (none, [])
  | b :: rest =>
    let options := bookmakerOptions marketKey b
    if options.length ≥ 2 then (pyBookmakerKey b.key, options)
    else chooseLoop marketKey rest

/-- `choose_market_options`. -/
def chooseMarketOptions (bookmakers : List RawBookmaker) (marketKey : String) :
    Option String × List CandidateOption :=
  chooseLoop marketKey (pySorted bookmakerSortLe bookmakers)

/-- A raw provider event, with string-or-absent fields as inspected by the
source (`isinstance(..., str)` checks fold non-strings into `none`). -/
structure RawEvent where
  id : Option String
  commence_time : Option String
  sport_title : Option String
  home_team : Option String
  away_team : Option String
  name : Option String
  bookmakers : Option (List RawBookmaker)
deriving DecidableEq

/-- `make_event_name`. -/
def makeEventName (e : RawEvent) : String :=
  match e.home_team, e.away_team with
  | some h, some a => h ++ " vs " ++ a
  | _, _ =>
    match e.name with
    | some n => n
    | none => "Unknown Event"

/-- The synthesised event id fallback `f"{sport_key}:{event_name}:{to_utc_z(parsed)}"`. -/
def rawEventId (toUtcZ : Int → String) (sportKey : String) (e : RawEvent) (parsed : Int) : String :=
  match e.id with
  | some s => if s = "" then sportKey ++ ":" ++ makeEventName e ++ ":" ++ toUtcZ parsed else s
  | none => sportKey ++ ":" ++ makeEventName e ++ ":" ++ toUtcZ parsed

/-- The sorting key for raw events: `str(e.get("id", ""))`. -/
def rawEventSortLe (a b : RawEvent) : Bool := strListLe [a.id.getD ""] [b.id.getD ""]

/-- The per-event market loop of `build_candidates`; a market whose chosen
options number fewer than two is skipped with no warning. -/
def buildMarkets (sportKey appSlug league eventName eventKey startTime eventId : String)
    (bms : List RawBookmaker) : List String → List CandidatePick
  | [] => []
  | marketKey :: rest =>
    let r := chooseMarketOptions bms marketKey
    if r.2.length < 2 then
      buildMarkets sportKey appSlug league eventName eventKey startTime eventId bms rest
    else
      { candidate_id := sportKey ++ ":" ++ eventId ++ ":" ++ marketKey
        sport_key := sportKey
        sport_slug := appSlug
        league := league
        event := eventName
        event_key := eventKey
        start_time := startTime
        market := marketKey
        bookmaker := r.1
        options := r.2
        provider_event_id := some eventId } ::
        buildMarkets sportKey appSlug league eventName eventKey startTime eventId bms rest

/-- The event loop of `build_candidates`, returning candidates and warnings
in source order (`parseTs`/`toUtcZ` wrap the stdlib datetime collaborators
`parse_utc_iso`/`to_utc_z`; timestamps are abstract instants). -/
def buildEventsLoop (parseTs : String → Option Int) (toUtcZ : Int → String)
    (sportKey appSlug fallbackLeague : String) (markets : List String) :
    List RawEvent → List CandidatePick × List String
  | [] => ([], [])
  | e :: rest =>
    let tail := buildEventsLoop parseTs toUtcZ sportKey appSlug fallbackLeague markets rest
    match e.commence_time with
    | none => (tail.1, (sportKey ++ ": skipping event with missing commence_time") :: tail.2)
    | some ct =>
      match parseTs ct with
      | none =>
        (tail.1,
          (sportKey ++ ": skipping event with invalid commence_time '" ++ ct ++ "'") :: tail.2)
      | some parsed =>
        let eventId := rawEventId toUtcZ sportKey e parsed
        match e.bookmakers with
        | none => (tail.1, (sportKey ++ ":" ++ eventId ++ ": missing bookmakers") :: tail.2)
        | some [] => (tail.1, (sportKey ++ ":" ++ eventId ++ ": missing bookmakers") :: tail.2)
        | some bms =>
          let eventName := makeEventName e
          let league := e.sport_title.getD fallbackLeague
          let eventKey := pyLower (pyStrip eventName) ++ "|" ++ toUtcZ parsed
          (buildMarkets sportKey appSlug league eventName eventKey (toUtcZ parsed) eventId bms
              markets ++ tail.1,
            tail.2)

/-- `build_candidates`. -/
def buildCandidates (parseTs : String → Option Int) (toUtcZ : Int → String)
    (rawEvents : List RawEvent) (sportKey appSlug fallbackLeague : String)
    (markets : List String) : List CandidatePick × List String :=
  let r := buildEventsLoop parseTs toUtcZ sportKey appSlug fallbackLeague markets
    (pySorted rawEventSortLe rawEvents)
  (deduplicateCandidates r.1, r.2)

/-! ### Featured-event selection (`featured_selector.py`) -/

/-- `EventModel`.  Modelled from the spec: the packaged `models.py` does not
declare `EventModel` (only importers survive under `src/`); §3 of the
specification fixes its fields — provider identity, sport/league/times,
optional home/away, status, an ordered participants list and a free-form
metadata map (`none` models a non-dict value). -/
structure EventModel where
  provider : String
  provider_event_id : String
  sport_slug : String
  league : String
  start_time : String
  home : Option String
  away : Option String
  status : String
  participants : List String
  metadata : Option (List (String × String))
deriving DecidableEq

/-- `FeaturedEventCandidate`. -/
structure FeaturedEventCandidate where
  id : String
  sport_slug : String
  league : String
  start_time : String
  home : Option String
  away : Option String
  bucket : String
deriving DecidableEq

/-- `event.metadata.get("db_event_id", "") if isinstance(event.metadata, dict) else ""`. -/
def metaDbEventId (m : Option (List (String × String))) : String :=
  match m with
  | none => ""
  | some kvs =>
    match kvs.lookup "db_event_id" with
    | some v => v
    | none => ""

/-- `_bucket_from_start` (the timestamp→local-date conversion `localDateOf`
is the zoneinfo collaborator). -/
def bucketFromStart (localDateOf : Int → Int) (ts : Int) (featuredDate : Int) : String :=
  let delta := localDateOf ts - featuredDate
  if delta ≤ 0 then "today"
  else if delta = 1 then "tomorrow"
  else "week_rest"

/-- The candidate record built for one event. -/
def featuredCandidateOf (localDateOf : Int → Int) (featuredDate : Int)
    (e : EventModel) (ts : Int) : FeaturedEventCandidate :=
  { id := metaDbEventId e.metadata
    sport_slug := e.sport_slug
    league := e.league
    start_time := e.start_time
    home := e.home
    away := e.away
    bucket := bucketFromStart localDateOf ts featuredDate }

/-- `build_featured_candidates` — timestamps in minutes; `parseTs` models
`parse_utc_iso`. -/
def buildFeaturedCandidates (parseTs : String → Option Int) (localDateOf : Int → Int)
    (events : List EventModel) (nowUtc : Int) (featuredDate : Int)
    (minLeadMinutes : Int) : List FeaturedEventCandidate :=
  let cutoff := nowUtc + max 0 minLeadMinutes
  (events.filterMap (fun e =>
    match parseTs e.start_time with
    | none => none
    | some ts =>
      if ts < cutoff then none
      else some (featuredCandidateOf localDateOf featuredDate e ts))).filter
    (fun c => c.id ≠ "")

/-- A candidate used by the C1 witness. -/
def witRank1 : CandidatePick :=
  { candidate_id := "a", sport_key := "golf_k", sport_slug := "golf",
    league := "PGA", event := "E1", event_key := "e1|t",
    start_time := "2026-02-10T10:00:00Z", market := "h2h", bookmaker := none,
    options := [⟨"A", ⟨2, 1⟩⟩, ⟨"B", ⟨3, 1⟩⟩], provider_event_id := none }

/-- A second candidate used by the C1 witness. -/
def witRank2 : CandidatePick :=
  { candidate_id := "b", sport_key := "golf_k", sport_slug := "golf",
    league := "PGA", event := "E2", event_key := "e2|t",
    start_time := "2026-02-11T10:00:00Z", market := "h2h", bookmaker := none,
    options := [⟨"A", ⟨2, 1⟩⟩, ⟨"B", ⟨5, 2⟩⟩], provider_event_id := none }

/-- One of two distinct records sharing candidate_id "dup" and the whole
canonical sort key, with equal mean odds (2.0): their scores tie exactly,
also in IEEE arithmetic, since both mean computations are exact. -/
def cexRankA : CandidatePick :=
  { candidate_id := "dup", sport_key := "golf_k", sport_slug := "golf",
    league := "L", event := "E", event_key := "e|t",
    start_time := "2026-02-10T10:00:00Z", market := "h2h", bookmaker := none,
    options := [⟨"A", ⟨1, 1⟩⟩, ⟨"B", ⟨3, 1⟩⟩], provider_event_id := none }

/-- The other record of the C1 counterexample pair (same key, different
options, same mean odds). -/
def cexRankB : CandidatePick :=
  { candidate_id := "dup", sport_key := "golf_k", sport_slug := "golf",
    league := "L", event := "E", event_key := "e|t",
    start_time := "2026-02-10T10:00:00Z", market := "h2h", bookmaker := none,
    options := [⟨"A", ⟨3, 2⟩⟩, ⟨"B", ⟨5, 2⟩⟩], provider_event_id := none }

/-- C3 witness candidate (La Liga). -/
def witLL : CandidatePick :=
  { candidate_id := "c5", sport_key := "soccer_key", sport_slug := "soccer",
    league := "La Liga", event := "Event 5", event_key := "Event 5|5",
    start_time := "2026-02-15T10:00:00.000Z", market := "h2h", bookmaker := some "book-a",
    options := [⟨"A", ⟨205, 100⟩⟩, ⟨"B", ⟨225, 100⟩⟩], provider_event_id := none }

/-- C3 witness candidate (Premier League). -/
def witPL : CandidatePick :=
  { candidate_id := "c4", sport_key := "soccer_key", sport_slug := "soccer",
    league := "Premier League", event := "Event 4", event_key := "Event 4|4",
    start_time := "2026-02-14T10:00:00.000Z", market := "h2h", bookmaker := some "book-a",
    options := [⟨"A", ⟨205, 100⟩⟩, ⟨"B", ⟨225, 100⟩⟩], provider_event_id := none }

/-- C3 witness candidate (Serie A). -/
def witSA : CandidatePick :=
  { candidate_id := "c3", sport_key := "soccer_key", sport_slug := "soccer",
    league := "Serie A", event := "Event 3", event_key := "Event 3|3",
    start_time := "2026-02-13T10:00:00.000Z", market := "h2h", bookmaker := some "book-a",
    options := [⟨"A", ⟨205, 100⟩⟩, ⟨"B", ⟨225, 100⟩⟩], provider_event_id := none }

/-- C3 witness candidate (Bundesliga). -/
def witBD : CandidatePick :=
  { candidate_id := "c1", sport_key := "soccer_key", sport_slug := "soccer",
    league := "Bundesliga", event := "Event 1", event_key := "Event 1|1",
    start_time := "2026-02-11T10:00:00.000Z", market := "h2h", bookmaker := some "book-a",
    options := [⟨"A", ⟨205, 100⟩⟩, ⟨"B", ⟨225, 100⟩⟩], provider_event_id := none }

/-- C3 witness candidate (UEFA Champions League). -/
def witCL : CandidatePick :=
  { candidate_id := "c2", sport_key := "soccer_key", sport_slug := "soccer",
    league := "UEFA Champions League", event := "Event 2", event_key := "Event 2|2",
    start_time := "2026-02-12T10:00:00.000Z", market := "h2h", bookmaker := some "book-a",
    options := [⟨"A", ⟨205, 100⟩⟩, ⟨"B", ⟨225, 100⟩⟩], provider_event_id := none }

/-! ### Normaliser lemmas (claim C5) -/

/-- The warnings `build_candidates` can emit, computed from the event-level
checks alone: market/outcome qualification plays no part in them. -/
def eventWarnings (parseTs : String → Option Int) (toUtcZ : Int → String)
    (sportKey : String) : List RawEvent → List String
  | [] => []
  | e :: rest =>
    let tail := eventWarnings parseTs toUtcZ sportKey rest
    match e.commence_time with
    | none => (sportKey ++ ": skipping event with missing commence_time") :: tail
    | some ct =>
      match parseTs ct with
      | none =>
        (sportKey ++ ": skipping event with invalid commence_time '" ++ ct ++ "'") :: tail
      | some parsed =>
        match e.bookmakers with
        | none =>
          (sportKey ++ ":" ++ rawEventId toUtcZ sportKey e parsed ++ ": missing bookmakers")
            :: tail
        | some [] =>
          (sportKey ++ ":" ++ rawEventId toUtcZ sportKey e parsed ++ ": missing bookmakers")
            :: tail
        | some _ => tail

/-- A provider event whose only bookmaker offers exactly one valid outcome
for the requested market. -/
def cexRawOutcome : RawOutcome := ⟨RawField.str "Team A", RawField.num ⟨2, 1⟩, RawField.missing⟩

def cexRawBookmaker : RawBookmaker :=
  ⟨RawField.str "bet365", some [⟨some "h2h", some [cexRawOutcome]⟩]⟩

def cexRawEvent : RawEvent :=
  ⟨some "ev1", some "2026-02-10T18:00:00Z", some "La Liga", some "Team A", some "Team B",
    none, some [cexRawBookmaker]⟩

theorem charLt_laws : StrictLaws (fun a b : Char => decide (a < b)) := by
  refine ⟨?_, ?_, ?_⟩
  · intro a b h
    simp only [decide_eq_true_eq] at h
    simp only [decide_eq_false_iff_not]
    exact lt_asymm h
  · intro a b c h₁ h₂
    simp only [decide_eq_true_eq] at *
    exact lt_trans h₁ h₂
  · intro a b h₁ h₂
    simp only [decide_eq_false_iff_not] at h₁ h₂
    exact le_antisymm (not_lt.mp h₂) (not_lt.mp h₁)

theorem lexLt_laws {lt : α → α → Bool} (hl : StrictLaws lt) : StrictLaws (lexLt lt) := by
  refine ⟨?_, ?_, ?_⟩
  · intro a
    induction a with
    | nil => intro b h; cases b <;> simp [lexLt] at h ⊢
    | cons x xs ih =>
      intro b h
      cases b with
      | nil => simp [lexLt] at h
      | cons y ys =>
        simp only [lexLt] at h ⊢
        by_cases hxy : lt x y = true
        · rw [hl.asymm x y hxy]
          simp [hxy, hl.asymm x y hxy]
        · simp only [hxy, if_false] at h
          by_cases hyx : lt y x = true
          · simp [hyx] at h
          · simp only [hyx, if_false] at h ⊢
            simp only [Bool.not_eq_true] at hxy
            simp [hxy, ih ys h]
  · intro a
    induction a with
    | nil =>
      intro b c h₁ h₂
      cases b with
      | nil => simpa using h₂
      | cons y ys => cases c with
        | nil => simp [lexLt] at h₂
        | cons z zs => simp [lexLt]
    | cons x xs ih =>
      intro b c h₁ h₂
      cases b with
      | nil => simp [lexLt] at h₁
      | cons y ys =>
        cases c with
        | nil => simp [lexLt] at h₂
        | cons z zs =>
          simp only [lexLt] at h₁ h₂ ⊢
          by_cases hxy : lt x y = true
          · -- x < y; combine with y ? z
            by_cases hyz : lt y z = true
            · simp [hl.trans x y z hxy hyz]
            · simp only [hyz, if_false] at h₂
              by_cases hzy : lt z y = true
              · simp [hzy] at h₂
              · -- y = z
                have : y = z := hl.conn y z (by simpa using hyz) (by simpa using hzy)
                subst this
                simp [hxy]
          · simp only [hxy, if_false] at h₁
            by_cases hyx : lt y x = true
            · simp [hyx] at h₁
            · simp only [hyx, if_false] at h₁
              have hxey : x = y := hl.conn x y (by simpa using hxy) (by simpa using hyx)
              subst hxey
              by_cases hxz : lt x z = true
              · simp [hxz]
              · simp only [hxz, if_false] at h₂ ⊢
                by_cases hzx : lt z x = true
                · simp [hzx] at h₂
                · simp only [hzx, if_false] at h₂ ⊢
                  exact ih ys zs h₁ h₂
  · intro a
    induction a with
    | nil =>
      intro b h₁ h₂
      cases b with
      | nil => rfl
      | cons y ys => simp [lexLt] at h₁
    | cons x xs ih =>
      intro b h₁ h₂
      cases b with
      | nil => simp [lexLt] at h₂
      | cons y ys =>
        simp only [lexLt] at h₁ h₂
        by_cases hxy : lt x y = true
        · simp [hxy] at h₁
        · simp only [hxy, if_false] at h₁ h₂
          by_cases hyx : lt y x = true
          · simp [hyx] at h₂
          · simp only [hyx, if_false] at h₁ h₂
            have : x = y := hl.conn x y (by simpa using hxy) (by simpa using hyx)
            subst this
            rw [ih ys h₁ h₂]

theorem strLt_laws : StrictLaws strLt := by
  have h := lexLt_laws charLt_laws
  refine ⟨?_, ?_, ?_⟩
  · intro a b hab; exact h.asymm a.data b.data hab
  · intro a b c h₁ h₂; exact h.trans a.data b.data c.data h₁ h₂
  · intro a b h₁ h₂
    have := h.conn a.data b.data h₁ h₂
    cases a; cases b; simp only at this; rw [this]

theorem strListLt_laws : StrictLaws strListLt := lexLt_laws strLt_laws

theorem pySorted_perm (le : α → α → Bool) (l : List α) : (pySorted le l).Perm l :=
  List.perm_insertionSort _ l

theorem pySorted_sorted (le : α → α → Bool)
    (htot : ∀ a b, le a b = true ∨ le b a = true)
    (htrans : ∀ a b c, le a b = true → le b c = true → le a c = true)
    (l : List α) : (pySorted le l).Pairwise (fun a b => le a b = true) := by
  haveI : IsTotal α (fun a b => le a b = true) := ⟨htot⟩
  haveI : IsTrans α (fun a b => le a b = true) := ⟨htrans⟩
  exact List.sorted_insertionSort _ l

theorem lexLe_total {lt : α → α → Bool} (hl : StrictLaws lt) (as bs : List α) :
    lexLe lt as bs = true ∨ lexLe lt bs as = true := by
  by_cases h : lexLt lt bs as = true
  · right
    have := (lexLt_laws hl).asymm bs as h
    simp [lexLe, this]
  · left
    simp only [Bool.not_eq_true] at h
    simp [lexLe, h]

theorem lexLe_trans {lt : α → α → Bool} (hl : StrictLaws lt) (as bs cs : List α)
    (h₁ : lexLe lt as bs = true) (h₂ : lexLe lt bs cs = true) : lexLe lt as cs = true := by
  have hll := lexLt_laws hl
  simp only [lexLe, Bool.not_eq_true'] at h₁ h₂ ⊢
  by_contra h
  simp only [Bool.not_eq_false] at h
  by_cases hab : lexLt lt as bs = true
  · have hcb : lexLt lt cs bs = true := hll.trans cs as bs h hab
    rw [h₂] at hcb
    exact Bool.false_ne_true hcb
  · have heq : as = bs := hll.conn as bs (by simpa using hab) h₁
    subst heq
    rw [h₂] at h
    exact Bool.false_ne_true h

/-- Key-antisymmetry of `lexLe`: mutually related lists are equal. -/
theorem lexLe_antisymm {lt : α → α → Bool} (hl : StrictLaws lt) (as bs : List α)
    (h₁ : lexLe lt as bs = true) (h₂ : lexLe lt bs as = true) : as = bs := by
  simp only [lexLe, Bool.not_eq_true'] at h₁ h₂
  exact (lexLt_laws hl).conn as bs h₂ h₁

/-- Two sorted lists that are permutations of each other and whose order is
antisymmetric on their members are equal (uniqueness of a stable sort's
output once keys distinguish distinct members). -/
theorem sorted_perm_unique {le : α → α → Bool} :
    ∀ (l₁ l₂ : List α), l₁.Perm l₂ →
      l₁.Pairwise (fun a b => le a b = true) →
      l₂.Pairwise (fun a b => le a b = true) →
      (∀ a ∈ l₁, ∀ b ∈ l₁, le a b = true → le b a = true → a = b) →
      l₁ = l₂ := by
  intro l₁
  induction l₁ with
  | nil =>
    intro l₂ hp _ _ _
    exact (List.Perm.nil_eq hp).symm ▸ rfl
  | cons a t ih =>
    intro l₂ hp hs₁ hs₂ hanti
    have ha₂ : a ∈ l₂ := hp.mem_iff.mp (List.mem_cons_self a t)
    cases l₂ with
    | nil => exact absurd ha₂ (List.not_mem_nil a)
    | cons b t₂ =>
      by_cases hab : a = b
      · subst hab
        have hpt : t.Perm t₂ := hp.cons_inv
        have := ih t₂ hpt (List.Pairwise.of_cons hs₁) (List.Pairwise.of_cons hs₂)
          (fun x hx y hy => hanti x (List.mem_cons_of_mem a hx) y (List.mem_cons_of_mem a hy))
        rw [this]
      · -- a is in t₂, b is in t; pairwise gives both le a b and le b a.
        have hat₂ : a ∈ t₂ := by
          rcases List.mem_cons.mp ha₂ with h | h
          · exact absurd h hab
          · exact h
        have hb₁ : b ∈ a :: t := hp.symm.mem_iff.mp (List.mem_cons_self b t₂)
        have hbt : b ∈ t := by
          rcases List.mem_cons.mp hb₁ with h | h
          · exact absurd h.symm hab
          · exact h
        have h₁ : le a b = true := (List.pairwise_cons.mp hs₁).1 b hbt
        have h₂ : le b a = true := (List.pairwise_cons.mp hs₂).1 a hat₂
        exact absurd (hanti a (List.mem_cons_self a t) b (List.mem_cons_of_mem a hbt) h₁ h₂) hab

/-- Stable sorts of key-injective permutations coincide. -/
theorem pySorted_eq_of_perm {le : α → α → Bool}
    (htot : ∀ a b, le a b = true ∨ le b a = true)
    (htrans : ∀ a b c, le a b = true → le b c = true → le a c = true)
    (l₁ l₂ : List α) (hp : l₁.Perm l₂)
    (hanti : ∀ a ∈ l₁, ∀ b ∈ l₁, le a b = true → le b a = true → a = b) :
    pySorted le l₁ = pySorted le l₂ := by
  refine sorted_perm_unique (pySorted le l₁) (pySorted le l₂)
    (((pySorted_perm le l₁).trans hp).trans (pySorted_perm le l₂).symm)
    (pySorted_sorted le htot htrans l₁) (pySorted_sorted le htot htrans l₂) ?_
  intro x hx y hy
  exact hanti x ((pySorted_perm le l₁).mem_iff.mp hx) y ((pySorted_perm le l₁).mem_iff.mp hy)

/-- A sorted, in-list-antisymmetric list is fixed by `pySorted`. -/
theorem pySorted_eq_self {le : α → α → Bool}
    (htot : ∀ a b, le a b = true ∨ le b a = true)
    (htrans : ∀ a b c, le a b = true → le b c = true → le a c = true)
    (l : List α) (hs : l.Pairwise (fun a b => le a b = true))
    (hanti : ∀ a ∈ l, ∀ b ∈ l, le a b = true → le b a = true → a = b) :
    pySorted le l = l := by
  refine sorted_perm_unique (pySorted le l) l (pySorted_perm le l)
    (pySorted_sorted le htot htrans l) hs ?_
  intro x hx y hy
  exact hanti x ((pySorted_perm le l).mem_iff.mp hx) y ((pySorted_perm le l).mem_iff.mp hy)

/-! ## Claim theorems -/

/-- Claim C8: the weekly anchor returns the local date itself on Monday,
Tuesday or Wednesday and otherwise the most recent Thursday (the unique
Thursday in the window reaching back from the date); in particular a local
Wednesday maps to the same local date, and a local Friday to the preceding
Thursday.  `anchor_date_for_mode` delegates to it in weekly mode. -/
theorem claim_C8 (d : Int) :
    (pyWeekday d ≤ 2 → weeklyAnchorDate d = d) ∧
    (3 ≤ pyWeekday d →
      pyWeekday (weeklyAnchorDate d) = 3 ∧ weeklyAnchorDate d ≤ d ∧
      (∀ e : Int, weeklyAnchorDate d < e → e ≤ d → pyWeekday e ≠ 3)) ∧
    (pyWeekday d = 2 → weeklyAnchorDate d = d) ∧
    (pyWeekday d = 4 → weeklyAnchorDate d = d - 1 ∧ pyWeekday (d - 1) = 3) ∧
    anchorDateForMode Mode.weekly d = weeklyAnchorDate d := by
  refine ⟨?_, ?_, ?_, ?_, rfl⟩
  · intro h
    simp only [weeklyAnchorDate, if_pos h]
  · intro h
    have hw : pyWeekday d = (d - 1) % 7 := rfl
    have hnot : ¬ pyWeekday d ≤ 2 := by omega
    simp only [weeklyAnchorDate, if_neg hnot]
    refine ⟨?_, by omega, ?_⟩
    · simp only [pyWeekday] at *
      omega
    · intro e h₁ h₂
      simp only [pyWeekday] at *
      omega
  · intro h
    have : pyWeekday d ≤ 2 := by omega
    simp only [weeklyAnchorDate, if_pos this]
  · intro h
    have hnot : ¬ pyWeekday d ≤ 2 := by omega
    simp only [weeklyAnchorDate, if_neg hnot]
    refine ⟨by omega, ?_⟩
    simp only [pyWeekday] at *
    omega

/-- Claim C10: every featured candidate carries, as its non-empty id, the
`db_event_id` entry of its source event's metadata, and an event whose
metadata is not a dict or lacks a non-empty `db_event_id` contributes no
candidate even when its start time parses and is at or after the lead-time
cutoff. -/
theorem claim_C10 (parseTs : String → Option Int) (localDateOf : Int → Int)
    (events : List EventModel) (nowUtc featuredDate minLead : Int) :
    (∀ c ∈ buildFeaturedCandidates parseTs localDateOf events nowUtc featuredDate minLead,
      c.id ≠ "" ∧ ∃ e ∈ events, ∃ ts : Int, parseTs e.start_time = some ts ∧
        nowUtc + max 0 minLead ≤ ts ∧
        c = featuredCandidateOf localDateOf featuredDate e ts ∧
        c.id = metaDbEventId e.metadata) ∧
    (∀ e ∈ events, metaDbEventId e.metadata = "" →
      ∀ ts : Int, parseTs e.start_time = some ts → nowUtc + max 0 minLead ≤ ts →
      featuredCandidateOf localDateOf featuredDate e ts ∉
        buildFeaturedCandidates parseTs localDateOf events nowUtc featuredDate minLead) := by
  constructor
  · intro c hc
    simp only [buildFeaturedCandidates, List.mem_filter, List.mem_filterMap,
      decide_eq_true_eq] at hc
    obtain ⟨⟨e, he, hfe⟩, hid⟩ := hc
    refine ⟨hid, e, he, ?_⟩
    cases hp : parseTs e.start_time with
    | none => rw [hp] at hfe; exact absurd hfe (by simp)
    | some ts =>
      rw [hp] at hfe
      dsimp only at hfe
      by_cases hlt : ts < nowUtc + max 0 minLead
      · rw [if_pos hlt] at hfe
        exact absurd hfe (by simp)
      · rw [if_neg hlt] at hfe
        have hceq := Option.some.inj hfe
        refine ⟨ts, rfl, not_lt.mp hlt, hceq.symm, ?_⟩
        rw [← hceq]
        rfl
  · intro e he hmeta ts hp hge hmem
    simp only [buildFeaturedCandidates, List.mem_filter, decide_eq_true_eq] at hmem
    exact absurd (show metaDbEventId e.metadata ≠ "" from hmem.2) (by simp [hmeta])

/-- Claim C7: a quota step that executes (positive limit, target not yet
met) and under-fills against its requested amount
`allowed = min(limit, target - len(selected))` appends exactly one
human-readable warning naming the step label and the requested-vs-selected
counts; a step that fills its request adds no warning, and a skipped step
returns the state unchanged.  Warnings are ordinary returned data — the
allocator's result is always the pair (selection, warnings). -/
theorem claim_C7 (mode : Mode) (target : Nat) (ranked : List CandidatePick)
    (limit : Nat) (label : String) (pred : CandidatePick → Bool) (st : AllocState) :
    (¬ (limit = 0 ∨ target ≤ st.selected.length) →
      ((takeQuota mode target ranked limit label pred st).2 <
          min limit (target - st.selected.length) →
        ((takeQuota mode target ranked limit label pred st).1).warnings =
          st.warnings ++ [warnShortfall label (min limit (target - st.selected.length))
            (takeQuota mode target ranked limit label pred st).2]) ∧
      (min limit (target - st.selected.length) ≤
          (takeQuota mode target ranked limit label pred st).2 →
        ((takeQuota mode target ranked limit label pred st).1).warnings = st.warnings)) ∧
    ((limit = 0 ∨ target ≤ st.selected.length) →
      takeQuota mode target ranked limit label pred st = (st, 0)) := by
  have hcond : (decide (limit = 0) || decide (st.selected.length ≥ target)) = true ↔
      (limit = 0 ∨ target ≤ st.selected.length) := by
    simp [ge_iff_le]
  constructor
  · intro hrun
    have hc : ¬ ((decide (limit = 0) || decide (st.selected.length ≥ target)) = true) := by
      rw [hcond]; exact hrun
    constructor
    · intro hunder
      simp only [takeQuota, if_neg hc] at hunder ⊢
      rw [if_pos hunder]
    · intro hfill
      simp only [takeQuota, if_neg hc] at hfill ⊢
      rw [if_neg (not_lt.mpr hfill)]
  · intro hskip
    simp only [takeQuota, if_pos (hcond.mpr hskip)]

/-! ### Allocator induction principles

Every candidate the allocator appends is drawn from the ranked input, has
an id not yet selected, and passes `can_add_candidate`; the lemmas below
push any predicate closed under such guarded appends through each phase. -/

theorem takeLoop_induct (mode : Mode) (pred : CandidatePick → Bool) (allowed : Nat)
    (P : List CandidatePick → Prop) (ranked : List CandidatePick)
    (hstep : ∀ sel c, c ∈ ranked → P sel → idSelected sel c = false →
      canAddCandidate mode sel c = true → P (sel ++ [c])) :
    ∀ l, (∀ c ∈ l, c ∈ ranked) → ∀ sel taken, P sel →
      P (takeLoop mode pred allowed l sel taken).1 := by
  intro l
  induction l with
  | nil => intro _ sel taken h; simpa [takeLoop] using h
  | cons c rest ih =>
    intro hsub sel taken h
    have hc : c ∈ ranked := hsub c (List.mem_cons_self c rest)
    have hrest : ∀ x ∈ rest, x ∈ ranked := fun x hx => hsub x (List.mem_cons_of_mem c hx)
    simp only [takeLoop]
    by_cases h1 : idSelected sel c = true
    · rw [if_pos h1]; exact ih hrest sel taken h
    · rw [if_neg h1]
      by_cases h2 : pred c = true
      · rw [if_neg (by simp [h2])]
        by_cases h3 : canAddCandidate mode sel c = true
        · rw [if_neg (by simp [h3])]
          have h' := hstep sel c hc h (by simpa using h1) h3
          by_cases h4 : taken + 1 ≥ allowed
          · rw [if_pos h4]; exact h'
          · rw [if_neg h4]; exact ih hrest (sel ++ [c]) (taken + 1) h'
        · rw [if_pos (by simpa using h3)]; exact ih hrest sel taken h
      · rw [if_pos (by simpa using h2)]; exact ih hrest sel taken h

theorem takeQuota_induct (mode : Mode) (target : Nat) (ranked : List CandidatePick)
    (limit : Nat) (label : String) (pred : CandidatePick → Bool)
    (P : List CandidatePick → Prop)
    (hstep : ∀ sel c, c ∈ ranked → P sel → idSelected sel c = false →
      canAddCandidate mode sel c = true → P (sel ++ [c]))
    (st : AllocState) (h : P st.selected) :
    P ((takeQuota mode target ranked limit label pred st).1).selected := by
  simp only [takeQuota]
  split
  · exact h
  · exact takeLoop_induct mode pred _ P ranked hstep ranked (fun c hc => hc) st.selected 0 h

theorem dailyCoverage_induct (target : Nat) (ranked : List CandidatePick)
    (P : List CandidatePick → Prop)
    (hstep : ∀ sel c, c ∈ ranked → P sel → idSelected sel c = false →
      canAddCandidate Mode.daily sel c = true → P (sel ++ [c])) :
    ∀ leagues st, P st.selected → P (dailyCoverage target ranked leagues st).selected := by
  intro leagues
  induction leagues with
  | nil => intro st h; exact h
  | cons lk rest ih =>
    intro st h
    obtain ⟨label, kws⟩ := lk
    exact ih _ (takeQuota_induct Mode.daily target ranked _ _ _ P hstep st h)

theorem weeklyCoverage_induct (target : Nat) (ranked : List CandidatePick)
    (P : List CandidatePick → Prop)
    (hstep : ∀ sel c, c ∈ ranked → P sel → idSelected sel c = false →
      canAddCandidate Mode.weekly sel c = true → P (sel ++ [c])) :
    ∀ leagues fs st, P st.selected →
      P ((weeklyCoverage target ranked leagues fs st).1).selected := by
  intro leagues
  induction leagues with
  | nil => intro fs st h; exact h
  | cons lk rest ih =>
    intro fs st h
    obtain ⟨label, kws⟩ := lk
    simp only [weeklyCoverage]
    split
    · exact h
    · exact ih _ _ (takeQuota_induct Mode.weekly target ranked _ _ _ P hstep st h)

theorem finalFill_induct (mode : Mode) (target : Nat)
    (P : List CandidatePick → Prop) (ranked : List CandidatePick)
    (hstep : ∀ sel c, c ∈ ranked → P sel → idSelected sel c = false →
      canAddCandidate mode sel c = true → P (sel ++ [c])) :
    ∀ l, (∀ c ∈ l, c ∈ ranked) → ∀ sel, P sel → P (finalFill mode target l sel) := by
  intro l
  induction l with
  | nil => intro _ sel h; exact h
  | cons c rest ih =>
    intro hsub sel h
    have hc : c ∈ ranked := hsub c (List.mem_cons_self c rest)
    have hrest : ∀ x ∈ rest, x ∈ ranked := fun x hx => hsub x (List.mem_cons_of_mem c hx)
    simp only [finalFill]
    by_cases h1 : idSelected sel c = true
    · rw [if_pos h1]; exact ih hrest sel h
    · rw [if_neg h1]
      by_cases h3 : canAddCandidate mode sel c = true
      · rw [if_neg (by simp [h3])]
        have h' := hstep sel c hc h (by simpa using h1) h3
        by_cases h4 : (sel ++ [c]).length ≥ target
        · rw [if_pos h4]; exact h'
        · rw [if_neg h4]; exact ih hrest (sel ++ [c]) h'
      · rw [if_pos (by simpa using h3)]; exact ih hrest sel h

theorem dailySchedule_induct (target : Nat) (ranked : List CandidatePick)
    (P : List CandidatePick → Prop)
    (hstep : ∀ sel c, c ∈ ranked → P sel → idSelected sel c = false →
      canAddCandidate Mode.daily sel c = true → P (sel ++ [c]))
    (hnil : P []) : P (dailySchedule target ranked).selected := by
  have hq := takeQuota_induct Mode.daily target ranked
  unfold dailySchedule
  lift_lets
  extract_lets st1 footballSelected eur footballSelected2 st3 nba atpM wtaM atpW wtaW others
    missing
  have h1 : P st1.selected :=
    dailyCoverage_induct target ranked P hstep footballPriorityLeagues ⟨[], []⟩ hnil
  have heur : P (eur.1).selected := by
    unfold eur
    split
    · exact hq _ _ _ P hstep st1 h1
    · exact h1
  have h3 : P st3.selected := by
    unfold st3
    split
    · exact hq _ _ _ P hstep eur.1 heur
    · exact heur
  have hnba : P (nba.1).selected := hq _ _ _ P hstep st3 h3
  have hatpM : P (atpM.1).selected := hq _ _ _ P hstep nba.1 hnba
  have hwtaM : P (wtaM.1).selected := hq _ _ _ P hstep atpM.1 hatpM
  have hatpW : P (atpW.1).selected := hq _ _ _ P hstep wtaM.1 hwtaM
  have hwtaW : P (wtaW.1).selected := hq _ _ _ P hstep atpW.1 hatpW
  have hothers : P (others.1).selected := hq _ _ _ P hstep wtaW.1 hwtaW
  split
  · exact hothers
  · lift_lets
    extract_lets fb remaining
    have hfb : P (fb.1).selected := by
      unfold fb
      exact hq _ _ _ P hstep others.1 hothers
    split
    · exact hfb
    · exact hq _ _ _ P hstep fb.1 hfb

theorem weeklySchedule_induct (target : Nat) (ranked : List CandidatePick)
    (P : List CandidatePick → Prop)
    (hstep : ∀ sel c, c ∈ ranked → P sel → idSelected sel c = false →
      canAddCandidate Mode.weekly sel c = true → P (sel ++ [c]))
    (hnil : P []) : P (weeklySchedule target ranked).selected := by
  have hq := takeQuota_induct Mode.weekly target ranked
  unfold weeklySchedule
  lift_lets
  extract_lets eur cov st1 nba euro atp wta winners wfb winners2 others missing
  have heur : P ((eur).1).selected := hq _ _ _ P hstep ⟨[], []⟩ hnil
  have hcov : P ((cov).1).selected := by
    unfold cov
    exact weeklyCoverage_induct target ranked P hstep footballPriorityLeagues eur.2 eur.1 heur
  have h1 : P st1.selected := by
    unfold st1
    split
    · exact hq _ _ _ P hstep cov.1 hcov
    · exact hcov
  have hnba : P (nba.1).selected := hq _ _ _ P hstep st1 h1
  have heuro : P (euro.1).selected := hq _ _ _ P hstep nba.1 hnba
  have hatp : P (atp.1).selected := hq _ _ _ P hstep euro.1 heuro
  have hwta : P (wta.1).selected := hq _ _ _ P hstep atp.1 hatp
  have hwfb : P (wfb.1).selected := by
    unfold wfb
    split
    · exact hq _ _ _ P hstep wta.1 hwta
    · exact hwta
  have hothers : P (others.1).selected := hq _ _ _ P hstep wfb.1 hwfb
  split
  · exact hothers
  · lift_lets
    extract_lets fb remaining
    have hfb : P (fb.1).selected := by
      unfold fb
      exact hq _ _ _ P hstep others.1 hothers
    split
    · exact hfb
    · exact hq _ _ _ P hstep fb.1 hfb

theorem allocGathered_induct (ranked : List CandidatePick) (target : Nat) (mode : Mode)
    (P : List CandidatePick → Prop)
    (hstep : ∀ sel c, c ∈ ranked → P sel → idSelected sel c = false →
      canAddCandidate mode sel c = true → P (sel ++ [c]))
    (hnil : P []) : P (allocGathered ranked target mode).selected := by
  cases mode with
  | daily =>
    have hsched := dailySchedule_induct target ranked P hstep hnil
    simp only [allocGathered]
    split
    · exact finalFill_induct Mode.daily target P ranked hstep ranked (fun c hc => hc) _ hsched
    · exact hsched
  | weekly =>
    have hsched := weeklySchedule_induct target ranked P hstep hnil
    simp only [allocGathered]
    split
    · exact finalFill_induct Mode.weekly target P ranked hstep ranked (fun c hc => hc) _ hsched
    · exact hsched

/-- The weekly re-ordering permutes the selection. -/
theorem orderWeekly_perm (l : List CandidatePick) :
    (orderWeeklyWithFootballLeaguePriority l).Perm l := by
  unfold orderWeeklyWithFootballLeaguePriority
  exact ((pySorted_perm weeklyFootballSortLe (l.filter isFootball)).append_right
    (l.filter (fun c => !isFootball c))).trans (List.filter_append_perm _ l)

/-- An unselected id is distinct from every selected candidate's id. -/
theorem idSelected_false_forall {sel : List CandidatePick} {c : CandidatePick}
    (h : idSelected sel c = false) :
    ∀ x ∈ sel, x.candidate_id ≠ c.candidate_id := by
  intro x hx heq
  have htrue : idSelected sel c = true := by
    simp only [idSelected, List.any_eq_true, decide_eq_true_eq]
    exact ⟨x, hx, heq⟩
  rw [h] at htrue
  exact Bool.false_ne_true htrue

/-- Claim C9: for every ranked input (records with duplicate ids included),
every mode and every target, the allocator output contains no candidate_id
twice, and every output element comes from the input sequence. -/
theorem claim_C9 (ranked : List CandidatePick) (target : Int) (mode : Mode) :
    (applyModePortfolioWithMode ranked target mode).1.Pairwise
      (fun a b => a.candidate_id ≠ b.candidate_id) ∧
    ∀ c ∈ (applyModePortfolioWithMode ranked target mode).1, c ∈ ranked := by
  by_cases ht : target ≤ 0
  · rw [show applyModePortfolioWithMode ranked target mode = ([], []) from by
      simp [applyModePortfolioWithMode, ht]]
    exact ⟨List.Pairwise.nil, by intro c hc; exact absurd hc (List.not_mem_nil c)⟩
  · have hG := allocGathered_induct ranked target.toNat mode
      (fun sel => sel.Pairwise (fun a b => a.candidate_id ≠ b.candidate_id) ∧
        ∀ c ∈ sel, c ∈ ranked)
      (by
        intro sel c hc hP hid hcan
        refine ⟨?_, ?_⟩
        · rw [List.pairwise_append]
          exact ⟨hP.1, List.pairwise_singleton _ c,
            fun a ha b hb => by
              rw [List.mem_singleton] at hb
              subst hb
              exact idSelected_false_forall hid a ha⟩
        · intro x hx
          rcases List.mem_append.mp hx with h | h
          · exact hP.2 x h
          · rw [List.mem_singleton] at h
            subst h
            exact hc)
      ⟨List.Pairwise.nil, by intro c hc; exact absurd hc (List.not_mem_nil c)⟩
    simp only [applyModePortfolioWithMode, if_neg ht]
    cases mode with
    | daily =>
      refine ⟨List.Pairwise.sublist (List.take_sublist _ _) hG.1, ?_⟩
      intro c hc
      exact hG.2 c (List.mem_of_mem_take hc)
    | weekly =>
      have hperm := orderWeekly_perm (allocGathered ranked target.toNat Mode.weekly).selected
      refine ⟨List.Pairwise.sublist (List.take_sublist _ _)
        ((hperm.pairwise_iff (fun h => Ne.symm h)).mpr hG.1), ?_⟩
      intro c hc
      exact hG.2 c (hperm.mem_iff.mp (List.mem_of_mem_take hc))

/-- Appending one candidate raises a `countP` by its predicate value. -/
theorem countP_snoc (p : CandidatePick → Bool) (l : List CandidatePick) (c : CandidatePick) :
    (l ++ [c]).countP p = l.countP p + (if p c = true then 1 else 0) := by
  simp [List.countP_append, List.countP_cons]

theorem notBasketball_of_football {c : CandidatePick} (h : isFootball c = true) :
    isBasketball c = false := by
  simp only [isFootball, decide_eq_true_eq] at h
  simp only [isBasketball, h]
  decide

theorem notTennis_of_football {c : CandidatePick} (h : isFootball c = true) :
    isTennis c = false := by
  simp only [isFootball, decide_eq_true_eq] at h
  simp only [isTennis, h]
  decide

theorem notFootball_of_basketball {c : CandidatePick} (h : isBasketball c = true) :
    isFootball c = false := by
  simp only [isBasketball, decide_eq_true_eq] at h
  simp only [isFootball, h]
  decide

theorem notTennis_of_basketball {c : CandidatePick} (h : isBasketball c = true) :
    isTennis c = false := by
  simp only [isBasketball, decide_eq_true_eq] at h
  simp only [isTennis, h]
  decide

theorem notFootball_of_tennis {c : CandidatePick} (h : isTennis c = true) :
    isFootball c = false := by
  simp only [isTennis, decide_eq_true_eq] at h
  simp only [isFootball, h]
  decide

theorem notBasketball_of_tennis {c : CandidatePick} (h : isTennis c = true) :
    isBasketball c = false := by
  simp only [isTennis, decide_eq_true_eq] at h
  simp only [isBasketball, h]
  decide

/-- Claim C2 (amended): in daily mode every football league-key contributes
at most 5 picks and at most 5 picks are NBA; at most one pick satisfies the
ATP tournament-winner predicate, and at most one satisfies the WTA predicate
without also satisfying the ATP one (the source registers a pick satisfying
both against the ATP slot, so a WTA-only cap is what the counters enforce). -/
theorem claim_C2 (ranked : List CandidatePick) (target : Int) :
    (∀ k, footballLeagueCount (applyModePortfolioWithMode ranked target Mode.daily).1 k ≤ 5) ∧
    nbaCount (applyModePortfolioWithMode ranked target Mode.daily).1 ≤ 5 ∧
    atpWinnerCount (applyModePortfolioWithMode ranked target Mode.daily).1 ≤ 1 ∧
    wtaWinnerCount (applyModePortfolioWithMode ranked target Mode.daily).1 ≤ 1 := by
  by_cases ht : target ≤ 0
  · rw [show applyModePortfolioWithMode ranked target Mode.daily = ([], []) from by
      simp [applyModePortfolioWithMode, ht]]
    exact ⟨fun k => by simp [footballLeagueCount], by simp [nbaCount],
      by simp [atpWinnerCount], by simp [wtaWinnerCount]⟩
  · have hG := allocGathered_induct ranked target.toNat Mode.daily
      (fun sel => (∀ k, footballLeagueCount sel k ≤ 5) ∧ nbaCount sel ≤ 5 ∧
        atpWinnerCount sel ≤ 1 ∧ wtaWinnerCount sel ≤ 1)
      (by
        intro sel c _ hP hid hcan
        obtain ⟨hf, hn, ha, hw⟩ := hP
        unfold canAddCandidate at hcan
        by_cases hfoot : isFootball c = true
        · rw [if_pos hfoot] at hcan
          have hlt : footballLeagueCount sel (footballLeagueKey c.league) < 5 := by
            simpa using hcan
          have hbb : isBasketball c = false := notBasketball_of_football hfoot
          have htn : isTennis c = false := notTennis_of_football hfoot
          refine ⟨?_, ?_, ?_, ?_⟩
          · intro k
            unfold footballLeagueCount
            rw [countP_snoc]
            by_cases hk : footballLeagueKey c.league = k
            · rw [if_pos (by simp [hfoot, hk])]
              have : footballLeagueCount sel k < 5 := hk ▸ hlt
              unfold footballLeagueCount at this
              omega
            · rw [if_neg (by simp [hk])]
              have := hf k
              unfold footballLeagueCount at this
              omega
          · unfold nbaCount
            rw [countP_snoc, if_neg (by simp [isNba, hbb])]
            unfold nbaCount at hn
            omega
          · unfold atpWinnerCount
            rw [countP_snoc,
              if_neg (by simp [isTennisAtpWinner, isTennisTournamentWinner, htn])]
            unfold atpWinnerCount at ha
            omega
          · unfold wtaWinnerCount
            rw [countP_snoc,
              if_neg (by simp [isTennisWtaWinner, isTennisTournamentWinner, htn])]
            unfold wtaWinnerCount at hw
            omega
        · rw [if_neg hfoot] at hcan
          by_cases hbb : isBasketball c = true
          · rw [if_pos hbb] at hcan
            have hff : isFootball c = false := notFootball_of_basketball hbb
            have htn : isTennis c = false := notTennis_of_basketball hbb
            by_cases hnba : isNba c = true
            · rw [if_pos hnba] at hcan
              have hlt : nbaCount sel < 5 := by simpa using hcan
              refine ⟨?_, ?_, ?_, ?_⟩
              · intro k
                unfold footballLeagueCount
                rw [countP_snoc, if_neg (by simp [hff])]
                have := hf k
                unfold footballLeagueCount at this
                omega
              · unfold nbaCount
                rw [countP_snoc, if_pos (by simp [hnba])]
                unfold nbaCount at hlt
                omega
              · unfold atpWinnerCount
                rw [countP_snoc,
                  if_neg (by simp [isTennisAtpWinner, isTennisTournamentWinner, htn])]
                unfold atpWinnerCount at ha
                omega
              · unfold wtaWinnerCount
                rw [countP_snoc,
                  if_neg (by simp [isTennisWtaWinner, isTennisTournamentWinner, htn])]
                unfold wtaWinnerCount at hw
                omega
            · rw [if_neg hnba] at hcan
              exfalso
              by_cases heu : isEuroleague c = true
              · rw [if_pos heu] at hcan
                simp at hcan
              · rw [if_neg heu] at hcan
                exact Bool.false_ne_true hcan
          · rw [if_neg hbb] at hcan
            by_cases htn : isTennis c = true
            · rw [if_pos htn] at hcan
              have hff : isFootball c = false := notFootball_of_tennis htn
              have hnb : isBasketball c = false := notBasketball_of_tennis htn
              have hcommon : (∀ k, footballLeagueCount (sel ++ [c]) k ≤ 5) ∧
                  nbaCount (sel ++ [c]) ≤ 5 := by
                constructor
                · intro k
                  unfold footballLeagueCount
                  rw [countP_snoc, if_neg (by simp [hff])]
                  have := hf k
                  unfold footballLeagueCount at this
                  omega
                · unfold nbaCount
                  rw [countP_snoc, if_neg (by simp [isNba, hnb])]
                  unfold nbaCount at hn
                  omega
              by_cases hwin : isTennisTournamentWinner c = true
              · rw [if_pos hwin] at hcan
                by_cases hatp : isTennisAtpWinner c = true
                · rw [if_pos hatp] at hcan
                  have hlt : atpWinnerCount sel < 1 := by simpa using hcan
                  refine ⟨hcommon.1, hcommon.2, ?_, ?_⟩
                  · unfold atpWinnerCount
                    rw [countP_snoc, if_pos (by simp [hatp])]
                    unfold atpWinnerCount at hlt
                    omega
                  · unfold wtaWinnerCount
                    rw [countP_snoc, if_neg (by simp [hatp])]
                    unfold wtaWinnerCount at hw
                    omega
                · rw [if_neg hatp] at hcan
                  by_cases hwta : isTennisWtaWinner c = true
                  · rw [if_pos hwta] at hcan
                    have hlt : wtaWinnerCount sel < 1 := by simpa using hcan
                    refine ⟨hcommon.1, hcommon.2, ?_, ?_⟩
                    · unfold atpWinnerCount
                      rw [countP_snoc, if_neg (by simp [hatp])]
                      unfold atpWinnerCount at ha
                      omega
                    · unfold wtaWinnerCount
                      rw [countP_snoc,
                        if_pos (by simp [hwta, Bool.eq_false_iff.mpr, hatp])]
                      unfold wtaWinnerCount at hlt
                      omega
                  · rw [if_neg hwta] at hcan
                    exact absurd hcan Bool.false_ne_true
              · rw [if_neg hwin] at hcan
                refine ⟨hcommon.1, hcommon.2, ?_, ?_⟩
                · unfold atpWinnerCount
                  rw [countP_snoc,
                    if_neg (by simp [isTennisAtpWinner, Bool.and_eq_true, hwin])]
                  unfold atpWinnerCount at ha
                  omega
                · unfold wtaWinnerCount
                  rw [countP_snoc,
                    if_neg (by simp [isTennisWtaWinner, Bool.and_eq_true, hwin])]
                  unfold wtaWinnerCount at hw
                  omega
            · rw [if_neg htn] at hcan
              have hff : isFootball c = false := hfoot |> Bool.eq_false_iff.mpr
              have hnb : isNba c = false := by
                simp [isNba, Bool.eq_false_iff.mpr hbb]
              have hntw : isTennisTournamentWinner c = false := by
                simp [isTennisTournamentWinner, Bool.eq_false_iff.mpr htn]
              refine ⟨?_, ?_, ?_, ?_⟩
              · intro k
                unfold footballLeagueCount
                rw [countP_snoc, if_neg (by simp [hff])]
                have := hf k
                unfold footballLeagueCount at this
                omega
              · unfold nbaCount
                rw [countP_snoc, if_neg (by simp [hnb])]
                unfold nbaCount at hn
                omega
              · unfold atpWinnerCount
                rw [countP_snoc, if_neg (by simp [isTennisAtpWinner, hntw])]
                unfold atpWinnerCount at ha
                omega
              · unfold wtaWinnerCount
                rw [countP_snoc, if_neg (by simp [isTennisWtaWinner, hntw])]
                unfold wtaWinnerCount at hw
                omega)
      ⟨fun k => by simp [footballLeagueCount], by simp [nbaCount],
        by simp [atpWinnerCount], by simp [wtaWinnerCount]⟩
    simp only [applyModePortfolioWithMode, if_neg ht]
    have hsub : List.Sublist
        ((allocGathered ranked target.toNat Mode.daily).selected.take target.toNat)
        (allocGathered ranked target.toNat Mode.daily).selected :=
      List.take_sublist _ _
    refine ⟨fun k => ?_, ?_, ?_, ?_⟩
    · unfold footballLeagueCount
      exact le_trans (List.Sublist.countP_le _ hsub) (hG.1 k)
    · unfold nbaCount
      exact le_trans (List.Sublist.countP_le _ hsub) hG.2.1
    · unfold atpWinnerCount
      exact le_trans (List.Sublist.countP_le _ hsub) hG.2.2.1
    · unfold wtaWinnerCount
      exact le_trans (List.Sublist.countP_le _ hsub) hG.2.2.2

/-- Claim C2 counterexample: with a tennis winner candidate whose league
text mentions both ATP and WTA followed by a WTA-only winner, the daily
allocator admits both (the first registers against the ATP slot), so two
output picks satisfy the WTA tournament-winner predicate — the claim's
"at most 1 pick satisfies the WTA predicate" fails as stated. -/
theorem claim_C2_counterexample :
    ¬ ((applyModePortfolioWithMode
        [{ candidate_id := "t1", sport_key := "tennis_key", sport_slug := "tennis",
           league := "ATP WTA Finals", event := "Event X", event_key := "event x|t",
           start_time := "2026-02-10T10:00:00Z", market := "winner", bookmaker := none,
           options := [⟨"A", ⟨2, 1⟩⟩, ⟨"B", ⟨2, 1⟩⟩], provider_event_id := none },
         { candidate_id := "t2", sport_key := "tennis_key", sport_slug := "tennis",
           league := "WTA 1000", event := "Event Y", event_key := "event y|t",
           start_time := "2026-02-10T10:00:00Z", market := "winner", bookmaker := none,
           options := [⟨"A", ⟨2, 1⟩⟩, ⟨"B", ⟨2, 1⟩⟩], provider_event_id := none }]
        25 Mode.daily).1.countP isTennisWtaWinner ≤ 1) := by
  decide

/-! ### Deduplication lemmas -/

theorem keepFirst_length : ∀ (seen : List String) (l : List CandidatePick),
    (keepFirstById seen l).length ≤ l.length := by
  intro seen l
  induction l generalizing seen with
  | nil => simp [keepFirstById]
  | cons c rest ih =>
    simp only [keepFirstById]
    split
    · exact le_trans (ih seen) (Nat.le_succ _)
    · simpa using ih (c.candidate_id :: seen)

theorem keepFirst_notin_seen : ∀ (seen : List String) (l : List CandidatePick)
    (c : CandidatePick), c ∈ keepFirstById seen l → seen.contains c.candidate_id = false := by
  intro seen l
  induction l generalizing seen with
  | nil => intro c hc; exact absurd hc (List.not_mem_nil c)
  | cons x rest ih =>
    intro c hc
    simp only [keepFirstById] at hc
    split at hc
    · exact ih seen c hc
    · rcases List.mem_cons.mp hc with h | h
      · subst h
        next hx => simpa using hx
      · have := ih (x.candidate_id :: seen) c h
        simp only [List.contains_cons, Bool.or_eq_false_iff] at this
        exact this.2

theorem keepFirst_pairwise : ∀ (seen : List String) (l : List CandidatePick),
    (keepFirstById seen l).Pairwise (fun a b => a.candidate_id ≠ b.candidate_id) := by
  intro seen l
  induction l generalizing seen with
  | nil => exact List.Pairwise.nil
  | cons x rest ih =>
    simp only [keepFirstById]
    split
    · exact ih seen
    · rw [List.pairwise_cons]
      refine ⟨?_, ih (x.candidate_id :: seen)⟩
      intro b hb heq
      have := keepFirst_notin_seen (x.candidate_id :: seen) rest b hb
      simp only [List.contains_cons, Bool.or_eq_false_iff] at this
      exact absurd (by simpa using heq.symm) (by simpa using this.1)

theorem keepFirst_fixed : ∀ (seen : List String) (l : List CandidatePick),
    l.Pairwise (fun a b => a.candidate_id ≠ b.candidate_id) →
    (∀ c ∈ l, seen.contains c.candidate_id = false) →
    keepFirstById seen l = l := by
  intro seen l
  induction l generalizing seen with
  | nil => intro _ _; rfl
  | cons x rest ih =>
    intro hpw hseen
    simp only [keepFirstById]
    rw [if_neg (by rw [hseen x (List.mem_cons_self x rest)]; simp)]
    congr 1
    refine ih (x.candidate_id :: seen) (List.Pairwise.of_cons hpw) ?_
    intro c hc
    simp only [List.contains_cons, Bool.or_eq_false_iff]
    constructor
    · have := (List.pairwise_cons.mp hpw).1 c hc
      simpa using fun h => this (by simpa using h.symm)
    · exact hseen c (List.mem_cons_of_mem x hc)

/-- Members of a list with pairwise-distinct ids are determined by their id. -/
theorem eq_of_mem_of_id_eq {l : List CandidatePick}
    (hpw : l.Pairwise (fun a b => a.candidate_id ≠ b.candidate_id))
    {a b : CandidatePick} (ha : a ∈ l) (hb : b ∈ l)
    (hid : a.candidate_id = b.candidate_id) : a = b := by
  by_contra hne
  exact (List.Pairwise.forall (fun x y h => Ne.symm h) hpw ha hb hne) hid

theorem candLe_total (a b : CandidatePick) : candLe a b = true ∨ candLe b a = true :=
  lexLe_total strLt_laws _ _

theorem candLe_trans (a b c : CandidatePick) (h₁ : candLe a b = true)
    (h₂ : candLe b c = true) : candLe a c = true :=
  lexLe_trans strLt_laws _ _ _ h₁ h₂

/-- Mutually `candLe`-related candidates share their canonical key, hence
their id. -/
theorem candLe_antisymm_id {a b : CandidatePick} (h₁ : candLe a b = true)
    (h₂ : candLe b a = true) : a.candidate_id = b.candidate_id := by
  have := lexLe_antisymm strLt_laws _ _ h₁ h₂
  simp only [candidateSortKey, List.cons.injEq, and_true] at this
  exact this.2.2.2.2

/-- Claim C6: by-id deduplication is idempotent and shrinking, retained ids
are unique, and the output is sorted by the canonical
`(start_time, sport_slug, market, event, candidate_id)` key. -/
theorem claim_C6 (C : List CandidatePick) :
    deduplicateCandidates (deduplicateCandidates C) = deduplicateCandidates C ∧
    (deduplicateCandidates C).length ≤ C.length ∧
    (deduplicateCandidates C).Pairwise (fun a b => a.candidate_id ≠ b.candidate_id) ∧
    (deduplicateCandidates C).Pairwise (fun a b => candLe a b = true) := by
  have hpwD : (deduplicateCandidates C).Pairwise
      (fun a b => a.candidate_id ≠ b.candidate_id) := by
    unfold deduplicateCandidates
    exact ((pySorted_perm candLe _).pairwise_iff (fun h => Ne.symm h)).mpr
      (keepFirst_pairwise [] _)
  have hsortD : (deduplicateCandidates C).Pairwise (fun a b => candLe a b = true) := by
    unfold deduplicateCandidates
    exact pySorted_sorted candLe candLe_total candLe_trans _
  have hantiD : ∀ a ∈ deduplicateCandidates C, ∀ b ∈ deduplicateCandidates C,
      candLe a b = true → candLe b a = true → a = b :=
    fun a ha b hb h₁ h₂ => eq_of_mem_of_id_eq hpwD ha hb (candLe_antisymm_id h₁ h₂)
  refine ⟨?_, ?_, hpwD, hsortD⟩
  · -- idempotence
    have hF : (pySorted dedupLe (deduplicateCandidates C)).Perm (deduplicateCandidates C) :=
      pySorted_perm dedupLe _
    have hpwF : (pySorted dedupLe (deduplicateCandidates C)).Pairwise
        (fun a b => a.candidate_id ≠ b.candidate_id) :=
      (hF.pairwise_iff (fun h => Ne.symm h)).mpr hpwD
    have hfix : keepFirstById [] (pySorted dedupLe (deduplicateCandidates C)) =
        pySorted dedupLe (deduplicateCandidates C) :=
      keepFirst_fixed [] _ hpwF (fun c _ => rfl)
    show pySorted candLe (keepFirstById [] (pySorted dedupLe (deduplicateCandidates C))) =
      deduplicateCandidates C
    rw [hfix]
    have h1 : pySorted candLe (pySorted dedupLe (deduplicateCandidates C)) =
        pySorted candLe (deduplicateCandidates C) := by
      refine pySorted_eq_of_perm candLe_total candLe_trans _ _ hF ?_
      intro a ha b hb h₁ h₂
      exact eq_of_mem_of_id_eq hpwF ha hb (candLe_antisymm_id h₁ h₂)
    rw [h1]
    exact pySorted_eq_self candLe_total candLe_trans _ hsortD hantiD
  · -- length
    calc (deduplicateCandidates C).length
        = (keepFirstById [] (pySorted dedupLe C)).length :=
          (pySorted_perm candLe _).length_eq
      _ ≤ (pySorted dedupLe C).length := keepFirst_length [] _
      _ = C.length := (pySorted_perm dedupLe C).length_eq

/-- Claim C1 (amended): the heuristic ranking — and hence
`select_candidates_heuristic` — is bit-identical across permutations of the
candidate list for every limit and every seed, provided no two distinct
candidates share the full canonical
`(start_time, sport_slug, market, event, candidate_id)` sort key (in
particular whenever candidate_ids are unique): the input is first sorted
canonically, and the greedy loop is a function of the sorted list. -/
theorem claim_C1 (h : String → PyF) (P C : List CandidatePick) (limit : Nat)
    (seed : Option String) (hperm : P.Perm C)
    (hkey : ∀ a ∈ C, ∀ b ∈ C, candidateSortKey a = candidateSortKey b → a = b) :
    heuristicRankedOrder h P limit seed = heuristicRankedOrder h C limit seed ∧
    ∀ (target : Int) (mode : Mode),
      selectCandidatesHeuristic h P target mode seed =
        selectCandidatesHeuristic h C target mode seed := by
  have hsort : pySorted candLe P = pySorted candLe C := by
    refine pySorted_eq_of_perm candLe_total candLe_trans P C hperm ?_
    intro a ha b hb h₁ h₂
    exact hkey a (hperm.mem_iff.mp ha) b (hperm.mem_iff.mp hb)
      (lexLe_antisymm strLt_laws _ _ h₁ h₂)
  have hrank : ∀ lim : Nat,
      heuristicRankedOrder h P lim seed = heuristicRankedOrder h C lim seed := by
    intro lim
    unfold heuristicRankedOrder
    rw [hsort]
  refine ⟨hrank limit, ?_⟩
  intro target mode
  unfold selectCandidatesHeuristic
  rw [hperm.length_eq, hrank C.length]

theorem claim_C1_witness :
    heuristicRankedOrder (fun _ => ⟨0, 1⟩) [witRank2, witRank1] 2 none =
      heuristicRankedOrder (fun _ => ⟨0, 1⟩) [witRank1, witRank2] 2 none ∧
    ∀ (target : Int) (mode : Mode),
      selectCandidatesHeuristic (fun _ => ⟨0, 1⟩) [witRank2, witRank1] target mode none =
        selectCandidatesHeuristic (fun _ => ⟨0, 1⟩) [witRank1, witRank2] target mode none :=
  claim_C1 (fun _ => ⟨0, 1⟩) [witRank2, witRank1] [witRank1, witRank2] 2 none
    (by decide) (by decide)

/-- Claim C1 counterexample: `[cexRankB, cexRankA]` is a permutation of
`[cexRankA, cexRankB]`, yet the heuristic ranking differs — the stable
canonical sort preserves the input order of the two key-equal records and
the exact score tie keeps whichever comes first, so the claim fails as
stated for lists with duplicate sort keys. -/
theorem claim_C1_counterexample :
    List.Perm [cexRankB, cexRankA] [cexRankA, cexRankB] ∧
    heuristicRankedOrder (fun _ => ⟨0, 1⟩) [cexRankB, cexRankA] 2 none ≠
      heuristicRankedOrder (fun _ => ⟨0, 1⟩) [cexRankA, cexRankB] 2 none := by
  constructor
  · decide
  · decide

/-! ### Exhaustion of the final fill (for claim C4) -/

/-- A selected id stays selected as the selection grows. -/
theorem idSelected_mono {sel : List CandidatePick} {c : CandidatePick}
    (ext : List CandidatePick) (h : idSelected sel c = true) :
    idSelected (sel ++ ext) c = true := by
  simp only [idSelected, List.any_append, Bool.or_eq_true]
  exact Or.inl h

/-- Once inadmissible, a candidate stays inadmissible: every counter is a
count over the selection, which only grows. -/
theorem canAdd_false_mono (mode : Mode) (c : CandidatePick) (sel ext : List CandidatePick)
    (h : canAddCandidate mode sel c = false) :
    canAddCandidate mode (sel ++ ext) c = false := by
  have hf : ∀ p : CandidatePick → Bool, sel.countP p ≤ (sel ++ ext).countP p := by
    intro p
    rw [List.countP_append]
    omega
  unfold canAddCandidate at h ⊢
  unfold footballLeagueCount nbaCount euroleagueCount atpWinnerCount wtaWinnerCount
    atpMatchCount wtaMatchCount at h ⊢
  split_ifs at h ⊢ <;>
    first
    | rfl
    | (simp only [] at h)
    | (simp only [decide_eq_false_iff_not, not_lt] at h ⊢
       exact le_trans h (hf _))
    | (rcases Bool.and_eq_false_iff.mp h with h' | h'
       · exact Bool.and_eq_false_iff.mpr (Or.inl h')
       · refine Bool.and_eq_false_iff.mpr (Or.inr ?_)
         simp only [decide_eq_false_iff_not, not_lt] at h' ⊢
         exact le_trans h' (hf _))

/-- The final fill extends the selection it is given. -/
theorem finalFill_extends (mode : Mode) (target : Nat) :
    ∀ l sel, ∃ ext, finalFill mode target l sel = sel ++ ext := by
  intro l
  induction l with
  | nil => intro sel; exact ⟨[], by simp [finalFill]⟩
  | cons c rest ih =>
    intro sel
    simp only [finalFill]
    by_cases h1 : idSelected sel c = true
    · rw [if_pos h1]; exact ih sel
    · rw [if_neg h1]
      by_cases h3 : canAddCandidate mode sel c = true
      · rw [if_neg (by simp [h3])]
        by_cases h4 : (sel ++ [c]).length ≥ target
        · rw [if_pos h4]; exact ⟨[c], rfl⟩
        · rw [if_neg h4]
          obtain ⟨ext, hext⟩ := ih (sel ++ [c])
          exact ⟨[c] ++ ext, by rw [hext, List.append_assoc]⟩
      · rw [if_pos (by simpa using h3)]; exact ih sel

/-- If the final fill stops short of the target, every visited candidate is
already selected (by id) or inadmissible against the final selection. -/
theorem finalFill_exhaust (mode : Mode) (target : Nat) :
    ∀ l sel, (finalFill mode target l sel).length < target →
      ∀ c ∈ l, idSelected (finalFill mode target l sel) c = true ∨
        canAddCandidate mode (finalFill mode target l sel) c = false := by
  intro l
  induction l with
  | nil => intro sel _ c hc; exact absurd hc (List.not_mem_nil c)
  | cons x rest ih =>
    intro sel hlen c hc
    simp only [finalFill] at hlen ⊢
    by_cases h1 : idSelected sel x = true
    · rw [if_pos h1] at hlen ⊢
      rcases List.mem_cons.mp hc with h | h
      · subst h
        obtain ⟨ext, hext⟩ := finalFill_extends mode target rest sel
        rw [hext]
        exact Or.inl (idSelected_mono ext h1)
      · exact ih sel hlen c h
    · rw [if_neg h1] at hlen ⊢
      by_cases h3 : canAddCandidate mode sel x = true
      · rw [if_neg (by simp [h3])] at hlen ⊢
        by_cases h4 : (sel ++ [x]).length ≥ target
        · rw [if_pos h4] at hlen
          omega
        · rw [if_neg h4] at hlen ⊢
          rcases List.mem_cons.mp hc with h | h
          · subst h
            obtain ⟨ext, hext⟩ := finalFill_extends mode target rest (sel ++ [c])
            rw [hext]
            refine Or.inl ?_
            simp [idSelected, List.any_append]
          · exact ih (sel ++ [x]) hlen c h
      · rw [if_pos (by simpa using h3)] at hlen ⊢
        rcases List.mem_cons.mp hc with h | h
        · subst h
          obtain ⟨ext, hext⟩ := finalFill_extends mode target rest sel
          rw [hext]
          exact Or.inr (canAdd_false_mono mode c sel ext (by simpa using h3))
        · exact ih sel hlen c h

/-- `idSelected` sees only the id multiset, so it respects permutations. -/
theorem idSelected_perm {sel sel' : List CandidatePick} (h : sel.Perm sel')
    (c : CandidatePick) : idSelected sel c = idSelected sel' c := by
  rw [← Bool.coe_iff_coe]
  simp only [idSelected, List.any_eq_true]
  constructor
  · rintro ⟨x, hx, he⟩; exact ⟨x, h.mem_iff.mp hx, he⟩
  · rintro ⟨x, hx, he⟩; exact ⟨x, h.mem_iff.mpr hx, he⟩

/-- `can_add_candidate` reads only counts over the selection, so it
respects permutations. -/
theorem canAdd_perm (mode : Mode) {sel sel' : List CandidatePick} (h : sel.Perm sel')
    (c : CandidatePick) : canAddCandidate mode sel c = canAddCandidate mode sel' c := by
  have hc : ∀ p : CandidatePick → Bool, sel.countP p = sel'.countP p :=
    fun p => h.countP_eq p
  unfold canAddCandidate footballLeagueCount nbaCount euroleagueCount atpWinnerCount
    wtaWinnerCount atpMatchCount wtaMatchCount
  simp only [hc]

/-- The gathered state unfolded (daily). -/
theorem allocGathered_daily_eq (ranked : List CandidatePick) (t : Nat) :
    allocGathered ranked t Mode.daily =
      (if (dailySchedule t ranked).selected.length < t then
        { selected := finalFill Mode.daily t ranked (dailySchedule t ranked).selected,
          warnings := (dailySchedule t ranked).warnings }
      else dailySchedule t ranked) := rfl

/-- The gathered state unfolded (weekly). -/
theorem allocGathered_weekly_eq (ranked : List CandidatePick) (t : Nat) :
    allocGathered ranked t Mode.weekly =
      (if (weeklySchedule t ranked).selected.length < t then
        { selected := finalFill Mode.weekly t ranked (weeklySchedule t ranked).selected,
          warnings := (weeklySchedule t ranked).warnings }
      else weeklySchedule t ranked) := rfl

/-- A gathered selection shorter than the target came out of the final
fill over the full ranked list. -/
theorem allocGathered_fill_of_short (ranked : List CandidatePick) (t : Nat) (mode : Mode)
    (h : (allocGathered ranked t mode).selected.length < t) :
    ∃ st : AllocState,
      (allocGathered ranked t mode).selected = finalFill mode t ranked st.selected := by
  cases mode with
  | daily =>
    rw [allocGathered_daily_eq] at h ⊢
    split at h
    · next hc => exact ⟨dailySchedule t ranked, by rw [if_pos hc]⟩
    · next hc => exact absurd h (by simpa using hc)
  | weekly =>
    rw [allocGathered_weekly_eq] at h ⊢
    split at h
    · next hc => exact ⟨weeklySchedule t ranked, by rw [if_pos hc]⟩
    · next hc => exact absurd h (by simpa using hc)

/-- Truncating a permutation of the gathered selection: the length bounds
and the exhaustion property claim C4 needs, for any list `L` that permutes
the gathered state (daily output, or the weekly re-ordering). -/
theorem allocTake_spec (ranked : List CandidatePick) (t : Nat) (mode : Mode)
    (L : List CandidatePick) (hL : L.Perm (allocGathered ranked t mode).selected) :
    (L.take t).length ≤ t ∧
    (t ≤ (allocGathered ranked t mode).selected.length → (L.take t).length = t) ∧
    ((L.take t).length < t →
      ∀ c ∈ ranked, idSelected (L.take t) c = true ∨
        canAddCandidate mode (L.take t) c = false) := by
  have hlen := hL.length_eq
  refine ⟨by simp [List.length_take], ?_, ?_⟩
  · intro hge
    rw [List.length_take]
    omega
  · intro hlt c hc
    rw [List.length_take] at hlt
    have hLlen : L.length < t := by omega
    have htake : L.take t = L := List.take_of_length_le (le_of_lt hLlen)
    rw [htake]
    have hGlen : (allocGathered ranked t mode).selected.length < t := by omega
    obtain ⟨st, hst⟩ := allocGathered_fill_of_short ranked t mode hGlen
    have hex := finalFill_exhaust mode t ranked st.selected
      (by rw [← hst]; exact hGlen) c hc
    rw [← hst] at hex
    rcases hex with h | h
    · exact Or.inl ((idSelected_perm hL c).trans h)
    · exact Or.inr ((canAdd_perm mode hL c).trans h)

/-- Claim C4: with a non-positive target the allocator returns no picks and
no warnings; the output never exceeds the target; it is exactly the target
when the gathering phase reached it; and when it falls short, every input
candidate is either already in the output (by id) or inadmissible against
it — the admissible universe is exhausted. -/
theorem claim_C4 (ranked : List CandidatePick) (target : Int) (mode : Mode) :
    (target ≤ 0 → applyModePortfolioWithMode ranked target mode = ([], [])) ∧
    (applyModePortfolioWithMode ranked target mode).1.length ≤ target.toNat ∧
    (target.toNat ≤ (allocGathered ranked target.toNat mode).selected.length →
      (applyModePortfolioWithMode ranked target mode).1.length = target.toNat) ∧
    ((applyModePortfolioWithMode ranked target mode).1.length < target.toNat →
      ∀ c ∈ ranked,
        idSelected (applyModePortfolioWithMode ranked target mode).1 c = true ∨
          canAddCandidate mode (applyModePortfolioWithMode ranked target mode).1 c = false) := by
  by_cases ht : target ≤ 0
  · have hz : applyModePortfolioWithMode ranked target mode = ([], []) := by
      simp [applyModePortfolioWithMode, ht]
    have htn : target.toNat = 0 := Int.toNat_of_nonpos ht
    refine ⟨fun _ => hz, ?_, ?_, ?_⟩
    · rw [hz]; simp
    · intro _; rw [hz, htn]; rfl
    · intro hlt
      rw [hz, htn] at hlt
      exact absurd hlt (by simp)
  · cases mode with
    | daily =>
      have hsel : (applyModePortfolioWithMode ranked target Mode.daily).1 =
          (allocGathered ranked target.toNat Mode.daily).selected.take target.toNat := by
        simp [applyModePortfolioWithMode, ht]
      have hspec := allocTake_spec ranked target.toNat Mode.daily
        (allocGathered ranked target.toNat Mode.daily).selected (List.Perm.refl _)
      rw [hsel]
      exact ⟨fun h0 => absurd h0 ht, hspec.1, hspec.2.1, hspec.2.2⟩
    | weekly =>
      have hsel : (applyModePortfolioWithMode ranked target Mode.weekly).1 =
          (orderWeeklyWithFootballLeaguePriority
            (allocGathered ranked target.toNat Mode.weekly).selected).take target.toNat := by
        simp [applyModePortfolioWithMode, ht]
      have hspec := allocTake_spec ranked target.toNat Mode.weekly
        (orderWeeklyWithFootballLeaguePriority
          (allocGathered ranked target.toNat Mode.weekly).selected) (orderWeekly_perm _)
      rw [hsel]
      exact ⟨fun h0 => absurd h0 ht, hspec.1, hspec.2.1, hspec.2.2⟩

/-! ### League-priority / league-key correspondence (for claim C3) -/

/-- `_football_league_priority` and `_football_league_key` scan the same
priority list; a priority below 4 fixes the key to the matching label, and
priority 4 (European competition) yields one of the two UEFA keys. -/
theorem key_of_priority (l : String) :
    (footballLeaguePriority l = 0 → footballLeagueKey l = "la_liga") ∧
    (footballLeaguePriority l = 1 → footballLeagueKey l = "premier_league") ∧
    (footballLeaguePriority l = 2 → footballLeagueKey l = "serie_a") ∧
    (footballLeaguePriority l = 3 → footballLeagueKey l = "bundesliga") ∧
    (footballLeaguePriority l = 4 →
      footballLeagueKey l = "uefa_champions_league" ∨
        footballLeagueKey l = "uefa_europa_league") := by
  unfold footballLeaguePriority footballLeagueKey
  simp only [footballPriorityLeagues, scanLeagueIdx, scanLeagueLabel, europeanFootballKeywords,
    List.any_cons, List.any_nil, Bool.or_false]
  by_cases h1 : (containsSub "la liga" (normalizeTxt l)
      || containsSub "spain" (normalizeTxt l)) = true
  · simp [h1]
    decide
  · simp only [h1, Bool.false_eq_true, if_false]
    by_cases h2 : (containsSub "premier league" (normalizeTxt l)
        || (containsSub "epl" (normalizeTxt l) || containsSub "england" (normalizeTxt l))) = true
    · simp [h2]
      decide
    · simp only [h2, Bool.false_eq_true, if_false]
      by_cases h3 : (containsSub "serie a" (normalizeTxt l)
          || containsSub "italy" (normalizeTxt l)) = true
      · simp [h3]
        decide
      · simp only [h3, Bool.false_eq_true, if_false]
        by_cases h4 : (containsSub "bundesliga" (normalizeTxt l)
            || containsSub "germany" (normalizeTxt l)) = true
        · simp [h4]
          decide
        · simp only [h4, Bool.false_eq_true, if_false]
          by_cases h5 : (containsSub "champions league" (normalizeTxt l)
              || (containsSub "uefa champions" (normalizeTxt l)
                || (containsSub "europa league" (normalizeTxt l)
                  || containsSub "uefa europa" (normalizeTxt l)))) = true
          · simp only [h5, if_true]
            refine ⟨fun hx => by simp at hx, fun hx => by simp at hx, fun hx => by simp at hx,
              fun hx => by simp at hx, fun _ => ?_⟩
            by_cases hcl : (containsSub "champions league" (normalizeTxt l)
                || containsSub "uefa champions" (normalizeTxt l)) = true
            · rw [if_pos hcl]
              exact Or.inl rfl
            · rw [if_neg (by simp [hcl])]
              rw [Bool.or_eq_true, Bool.or_eq_true, Bool.or_eq_true] at h5
              rw [Bool.not_eq_true, Bool.or_eq_false_iff] at hcl
              have he : (containsSub "europa league" (normalizeTxt l)
                  || containsSub "uefa europa" (normalizeTxt l)) = true := by
                rcases h5 with h | h | h | h
                · exact absurd h (by simp [hcl.1])
                · exact absurd h (by simp [hcl.2])
                · simp [h]
                · simp [h]
              rw [if_pos he]
              exact Or.inr rfl
          · simp only [h5, Bool.false_eq_true, if_false]
            exact ⟨fun hx => by simp at hx, fun hx => by simp at hx, fun hx => by simp at hx,
              fun hx => by simp at hx, fun hx => by simp at hx⟩

/-- Candidates with distinct priorities at most 4 have distinct league keys. -/
theorem key_ne_of_priority_ne {la lb : String} {pa pb : Nat}
    (hpa : footballLeaguePriority la = pa) (hpb : footballLeaguePriority lb = pb)
    (hle : pa < pb) (hpb4 : pb ≤ 4) : footballLeagueKey la ≠ footballLeagueKey lb := by
  have ka := key_of_priority la
  have kb := key_of_priority lb
  have hpa3 : pa ≤ 3 := by omega
  interval_cases pb <;> interval_cases pa <;>
    (first
      | have hka := ka.1 hpa
      | have hka := ka.2.1 hpa
      | have hka := ka.2.2.1 hpa
      | have hka := ka.2.2.2.1 hpa) <;>
    (first
      | (have hkb := kb.2.1 hpb
         rw [hka, hkb]
         decide)
      | (have hkb := kb.2.2.1 hpb
         rw [hka, hkb]
         decide)
      | (have hkb := kb.2.2.2.1 hpb
         rw [hka, hkb]
         decide)
      | (rcases kb.2.2.2.2 hpb with h | h <;> rw [hka, h] <;> decide))

/-! ### Weekly football ordering laws -/

theorem weeklyLe_of_priority_lt {a b : CandidatePick}
    (h : footballLeaguePriority a.league < footballLeaguePriority b.league) :
    weeklyFootballSortLe a b = true := by
  unfold weeklyFootballSortLe
  rw [if_pos h]

theorem weeklyLe_le_priority {a b : CandidatePick} (h : weeklyFootballSortLe a b = true) :
    footballLeaguePriority a.league ≤ footballLeaguePriority b.league := by
  unfold weeklyFootballSortLe at h
  by_cases h1 : footballLeaguePriority a.league < footballLeaguePriority b.league
  · exact le_of_lt h1
  · rw [if_neg h1] at h
    by_cases h2 : footballLeaguePriority b.league < footballLeaguePriority a.league
    · rw [if_pos h2] at h
      exact absurd h (by simp)
    · omega

theorem weeklyLe_total (a b : CandidatePick) :
    weeklyFootballSortLe a b = true ∨ weeklyFootballSortLe b a = true := by
  rcases lt_trichotomy (footballLeaguePriority a.league)
      (footballLeaguePriority b.league) with h | h | h
  · exact Or.inl (weeklyLe_of_priority_lt h)
  · unfold weeklyFootballSortLe
    rw [if_neg (by omega), if_neg (by omega), if_neg (by omega), if_neg (by omega)]
    exact lexLe_total strLt_laws _ _
  · exact Or.inr (weeklyLe_of_priority_lt h)

theorem weeklyLe_trans (a b c : CandidatePick) (h₁ : weeklyFootballSortLe a b = true)
    (h₂ : weeklyFootballSortLe b c = true) : weeklyFootballSortLe a c = true := by
  have p1 := weeklyLe_le_priority h₁
  have p2 := weeklyLe_le_priority h₂
  by_cases hac : footballLeaguePriority a.league < footballLeaguePriority c.league
  · exact weeklyLe_of_priority_lt hac
  · have hab : ¬ footballLeaguePriority a.league < footballLeaguePriority b.league := by omega
    have hba : ¬ footballLeaguePriority b.league < footballLeaguePriority a.league := by omega
    have hbc : ¬ footballLeaguePriority b.league < footballLeaguePriority c.league := by omega
    have hcb : ¬ footballLeaguePriority c.league < footballLeaguePriority b.league := by omega
    unfold weeklyFootballSortLe at h₁ h₂ ⊢
    rw [if_neg hab, if_neg hba] at h₁
    rw [if_neg hbc, if_neg hcb] at h₂
    rw [if_neg hac, if_neg (by omega)]
    exact lexLe_trans strLt_laws _ _ _ h₁ h₂

/-- The weekly allocator output, unfolded. -/
theorem applyMode_weekly_eq (ranked : List CandidatePick) (t : Int) (ht : ¬ t ≤ 0) :
    applyModePortfolioWithMode ranked t Mode.weekly =
      ((pySorted weeklyFootballSortLe
          ((allocGathered ranked t.toNat Mode.weekly).selected.filter isFootball) ++
        (allocGathered ranked t.toNat Mode.weekly).selected.filter
          (fun c => !isFootball c)).take t.toNat,
       (allocGathered ranked t.toNat Mode.weekly).warnings) := by
  unfold applyModePortfolioWithMode
  rw [if_neg ht]
  rfl

/-- A duplicate-free list in which all witnesses of `p` are equal counts
`p` at most once. -/
theorem countP_le_one_of_unique (p : CandidatePick → Bool) :
    ∀ l : List CandidatePick, l.Nodup →
      (∀ x ∈ l, ∀ y ∈ l, p x = true → p y = true → x = y) → l.countP p ≤ 1 := by
  intro l
  induction l with
  | nil => intro _ _; simp
  | cons a rest ih =>
    intro hnd h
    rw [List.countP_cons]
    by_cases hpa : p a = true
    · have hrest : rest.countP p = 0 := by
        rw [List.countP_eq_zero]
        intro x hx hpx
        have hax : x = a :=
          h x (List.mem_cons_of_mem a hx) a (List.mem_cons_self a rest) hpx hpa
        subst hax
        exact (List.nodup_cons.mp hnd).1 hx
      rw [hrest]
      simp [hpa]
    · have := ih (List.nodup_cons.mp hnd).2 (fun x hx y hy hpx hpy =>
        h x (List.mem_cons_of_mem a hx) y (List.mem_cons_of_mem a hy) hpx hpy)
      simp only [hpa]
      simpa using this

/-- Claim C3: (i) given five football candidates classified one-per-league
into La Liga, Premier League, Serie A, Bundesliga and a European
competition (priorities 0–4), with distinct ids, and a target of at least
5, the weekly allocator selects all five and returns them exactly in league
priority order; (ii) in general, the weekly output is the truncation of the
priority-sorted football picks followed by the non-football picks in their
selection order. -/
theorem claim_C3 (t : Int) (ranked : List CandidatePick)
    (cll cpl csa cbd ccl : CandidatePick)
    (hperm : ranked.Perm [cll, cpl, csa, cbd, ccl])
    (hids : ([cll, cpl, csa, cbd, ccl] : List CandidatePick).Pairwise
      (fun a b => a.candidate_id ≠ b.candidate_id))
    (hfoot : ∀ c ∈ ([cll, cpl, csa, cbd, ccl] : List CandidatePick), isFootball c = true)
    (hp0 : footballLeaguePriority cll.league = 0)
    (hp1 : footballLeaguePriority cpl.league = 1)
    (hp2 : footballLeaguePriority csa.league = 2)
    (hp3 : footballLeaguePriority cbd.league = 3)
    (hp4 : footballLeaguePriority ccl.league = 4)
    (ht : 5 ≤ t) :
    (applyModePortfolioWithMode ranked t Mode.weekly).1 = [cll, cpl, csa, cbd, ccl] ∧
    ∀ (rk : List CandidatePick) (t' : Int), ¬ t' ≤ 0 →
      (applyModePortfolioWithMode rk t' Mode.weekly).1 =
        ((pySorted weeklyFootballSortLe
            ((allocGathered rk t'.toNat Mode.weekly).selected.filter isFootball)) ++
          (allocGathered rk t'.toNat Mode.weekly).selected.filter
            (fun c => !isFootball c)).take t'.toNat ∧
      (pySorted weeklyFootballSortLe
          ((allocGathered rk t'.toNat Mode.weekly).selected.filter isFootball)).Pairwise
        (fun a b => weeklyFootballSortLe a b = true) := by
  have htpos : ¬ t ≤ 0 := by omega
  have htn5 : 5 ≤ t.toNat := by omega
  have hnodupL : ([cll, cpl, csa, cbd, ccl] : List CandidatePick).Nodup :=
    hids.imp (fun h => by intro he; exact h (by rw [he]))
  have k01 := key_ne_of_priority_ne hp0 hp1 (by omega) (by omega)
  have k02 := key_ne_of_priority_ne hp0 hp2 (by omega) (by omega)
  have k03 := key_ne_of_priority_ne hp0 hp3 (by omega) (by omega)
  have k04 := key_ne_of_priority_ne hp0 hp4 (by omega) (by omega)
  have k12 := key_ne_of_priority_ne hp1 hp2 (by omega) (by omega)
  have k13 := key_ne_of_priority_ne hp1 hp3 (by omega) (by omega)
  have k14 := key_ne_of_priority_ne hp1 hp4 (by omega) (by omega)
  have k23 := key_ne_of_priority_ne hp2 hp3 (by omega) (by omega)
  have k24 := key_ne_of_priority_ne hp2 hp4 (by omega) (by omega)
  have k34 := key_ne_of_priority_ne hp3 hp4 (by omega) (by omega)
  have hkey_ne : ∀ x ∈ ([cll, cpl, csa, cbd, ccl] : List CandidatePick),
      ∀ y ∈ ([cll, cpl, csa, cbd, ccl] : List CandidatePick), x ≠ y →
      footballLeagueKey x.league ≠ footballLeagueKey y.league := by
    intro x hx y hy hxy
    simp only [List.mem_cons, List.not_mem_nil, or_false] at hx hy
    rcases hx with rfl | rfl | rfl | rfl | rfl <;>
      rcases hy with rfl | rfl | rfl | rfl | rfl <;>
      first
      | exact absurd rfl hxy
      | assumption
      | (intro he; exact absurd he.symm (by assumption))
  -- the gathered selection
  have hG := allocGathered_induct ranked t.toNat Mode.weekly
    (fun sel => sel.Pairwise (fun a b => a.candidate_id ≠ b.candidate_id) ∧
      ∀ c ∈ sel, c ∈ ranked)
    (by
      intro sel c hc hP hid hcan
      refine ⟨?_, ?_⟩
      · rw [List.pairwise_append]
        exact ⟨hP.1, List.pairwise_singleton _ c,
          fun a ha b hb => by
            rw [List.mem_singleton] at hb
            subst hb
            exact idSelected_false_forall hid a ha⟩
      · intro x hx
        rcases List.mem_append.mp hx with h | h
        · exact hP.2 x h
        · rw [List.mem_singleton] at h
          subst h
          exact hc)
    ⟨List.Pairwise.nil, by intro c hc; exact absurd hc (List.not_mem_nil c)⟩
  obtain ⟨hGpw, hGsub⟩ := hG
  have hGsubL : ∀ c ∈ (allocGathered ranked t.toNat Mode.weekly).selected,
      c ∈ ([cll, cpl, csa, cbd, ccl] : List CandidatePick) :=
    fun c hc => hperm.mem_iff.mp (hGsub c hc)
  have hGnodup : (allocGathered ranked t.toNat Mode.weekly).selected.Nodup :=
    hGpw.imp (fun h => by intro he; exact h (by rw [he]))
  have hGsp : (allocGathered ranked t.toNat Mode.weekly).selected.Subperm
      [cll, cpl, csa, cbd, ccl] :=
    hGnodup.subperm hGsubL
  have hkeys : ∀ c ∈ ([cll, cpl, csa, cbd, ccl] : List CandidatePick),
      footballLeagueCount (allocGathered ranked t.toNat Mode.weekly).selected
        (footballLeagueKey c.league) ≤ 1 := by
    intro c hc
    have hone : ([cll, cpl, csa, cbd, ccl] : List CandidatePick).countP
        (fun x => isFootball x && footballLeagueKey x.league = footballLeagueKey c.league)
        ≤ 1 := by
      refine countP_le_one_of_unique _ _ hnodupL ?_
      intro x hx y hy hpx hpy
      simp only [Bool.and_eq_true, decide_eq_true_eq] at hpx hpy
      by_contra hxy
      exact hkey_ne x hx y hy hxy (hpx.2.trans hpy.2.symm)
    unfold footballLeagueCount
    exact le_trans (List.Subperm.countP_le _ hGsp) hone
  have hcanAll : ∀ c ∈ ([cll, cpl, csa, cbd, ccl] : List CandidatePick),
      canAddCandidate Mode.weekly (allocGathered ranked t.toNat Mode.weekly).selected c
        = true := by
    intro c hc
    unfold canAddCandidate
    rw [if_pos (hfoot c hc)]
    have := hkeys c hc
    simp only [decide_eq_true_eq]
    split
    · omega
    · omega
  have hallin : ∀ c ∈ ([cll, cpl, csa, cbd, ccl] : List CandidatePick),
      c ∈ (allocGathered ranked t.toNat Mode.weekly).selected := by
    intro c hc
    by_cases hlen : (allocGathered ranked t.toNat Mode.weekly).selected.length < t.toNat
    · obtain ⟨st, hst⟩ := allocGathered_fill_of_short ranked t.toNat Mode.weekly hlen
      have hex := finalFill_exhaust Mode.weekly t.toNat ranked st.selected
        (by rw [← hst]; exact hlen) c (hperm.mem_iff.mpr hc)
      rw [← hst] at hex
      rcases hex with h | h
      · simp only [idSelected, List.any_eq_true, decide_eq_true_eq] at h
        obtain ⟨x, hx, hxid⟩ := h
        have : x = c := eq_of_mem_of_id_eq hids (hGsubL x hx) hc hxid
        rw [← this]
        exact hx
      · rw [hcanAll c hc] at h
        exact absurd h (by simp)
    · have hperm5 : ((allocGathered ranked t.toNat Mode.weekly).selected).Perm
          [cll, cpl, csa, cbd, ccl] :=
        hGsp.perm_of_length_le (by simp only [List.length_cons, List.length_nil]; omega)
      exact hperm5.mem_iff.mpr hc
  have hGperm : ((allocGathered ranked t.toNat Mode.weekly).selected).Perm
      [cll, cpl, csa, cbd, ccl] :=
    List.Subperm.antisymm hGsp (hnodupL.subperm hallin)
  have hGfoot : (allocGathered ranked t.toNat Mode.weekly).selected.filter isFootball =
      (allocGathered ranked t.toNat Mode.weekly).selected :=
    List.filter_eq_self.mpr (fun a ha => hfoot a (hGsubL a ha))
  have hGnonfoot : (allocGathered ranked t.toNat Mode.weekly).selected.filter
      (fun c => !isFootball c) = [] :=
    List.filter_eq_nil_iff.mpr (fun a ha => by simp [hfoot a (hGsubL a ha)])
  have hanti5 : ∀ a ∈ ([cll, cpl, csa, cbd, ccl] : List CandidatePick),
      ∀ b ∈ ([cll, cpl, csa, cbd, ccl] : List CandidatePick),
      weeklyFootballSortLe a b = true → weeklyFootballSortLe b a = true → a = b := by
    intro a ha b hb h₁ h₂
    have hq1 := weeklyLe_le_priority h₁
    have hq2 := weeklyLe_le_priority h₂
    simp only [List.mem_cons, List.not_mem_nil, or_false] at ha hb
    rcases ha with rfl | rfl | rfl | rfl | rfl <;>
      rcases hb with rfl | rfl | rfl | rfl | rfl <;>
      first | rfl | omega
  have hsorted5 : ([cll, cpl, csa, cbd, ccl] : List CandidatePick).Pairwise
      (fun a b => weeklyFootballSortLe a b = true) := by
    refine List.Pairwise.cons ?_ (List.Pairwise.cons ?_ (List.Pairwise.cons ?_
      (List.Pairwise.cons ?_ (List.pairwise_singleton _ _)))) <;>
      intro x hx <;>
      simp only [List.mem_cons, List.not_mem_nil, or_false] at hx
    · rcases hx with rfl | rfl | rfl | rfl <;> exact weeklyLe_of_priority_lt (by omega)
    · rcases hx with rfl | rfl | rfl <;> exact weeklyLe_of_priority_lt (by omega)
    · rcases hx with rfl | rfl <;> exact weeklyLe_of_priority_lt (by omega)
    · subst hx
      exact weeklyLe_of_priority_lt (by omega)
  have hsortG : pySorted weeklyFootballSortLe
      (allocGathered ranked t.toNat Mode.weekly).selected = [cll, cpl, csa, cbd, ccl] := by
    have h1 : pySorted weeklyFootballSortLe
        (allocGathered ranked t.toNat Mode.weekly).selected =
        pySorted weeklyFootballSortLe [cll, cpl, csa, cbd, ccl] := by
      refine pySorted_eq_of_perm weeklyLe_total weeklyLe_trans _ _ hGperm ?_
      intro a ha b hb h₁ h₂
      exact hanti5 a (hGperm.mem_iff.mp ha) b (hGperm.mem_iff.mp hb) h₁ h₂
    rw [h1]
    exact pySorted_eq_self weeklyLe_total weeklyLe_trans _ hsorted5 hanti5
  constructor
  · rw [applyMode_weekly_eq ranked t htpos]
    show (pySorted weeklyFootballSortLe
        ((allocGathered ranked t.toNat Mode.weekly).selected.filter isFootball) ++
      (allocGathered ranked t.toNat Mode.weekly).selected.filter
        (fun c => !isFootball c)).take t.toNat = _
    rw [hGfoot, hGnonfoot, hsortG, List.append_nil]
    exact List.take_of_length_le (by simp only [List.length_cons, List.length_nil]; omega)
  · intro rk t' ht'
    refine ⟨?_, pySorted_sorted weeklyFootballSortLe weeklyLe_total weeklyLe_trans _⟩
    rw [applyMode_weekly_eq rk t' ht']

theorem claim_C3_witness :
    (applyModePortfolioWithMode [witBD, witCL, witSA, witPL, witLL] 5 Mode.weekly).1 =
      [witLL, witPL, witSA, witBD, witCL] ∧
    ∀ (rk : List CandidatePick) (t' : Int), ¬ t' ≤ 0 →
      (applyModePortfolioWithMode rk t' Mode.weekly).1 =
        ((pySorted weeklyFootballSortLe
            ((allocGathered rk t'.toNat Mode.weekly).selected.filter isFootball)) ++
          (allocGathered rk t'.toNat Mode.weekly).selected.filter
            (fun c => !isFootball c)).take t'.toNat ∧
      (pySorted weeklyFootballSortLe
          ((allocGathered rk t'.toNat Mode.weekly).selected.filter isFootball)).Pairwise
        (fun a b => weeklyFootballSortLe a b = true) :=
  claim_C3 5 [witBD, witCL, witSA, witPL, witLL] witLL witPL witSA witBD witCL
    (by decide) (by decide) (by decide) (by decide) (by decide) (by decide) (by decide)
    (by decide) (by decide)

/-- The event loop's warnings are exactly the event-level warnings — no
warning mentions a dropped (event, market) pair. -/
theorem buildEventsLoop_warnings (parseTs : String → Option Int) (toUtcZ : Int → String)
    (sportKey appSlug fallbackLeague : String) (markets : List String) :
    ∀ events, (buildEventsLoop parseTs toUtcZ sportKey appSlug fallbackLeague markets
        events).2 = eventWarnings parseTs toUtcZ sportKey events := by
  intro events
  induction events with
  | nil => rfl
  | cons e rest ih =>
    obtain ⟨eid, oct, st, ht, aw, nm, obm⟩ := e
    cases oct with
    | none => simp [buildEventsLoop, eventWarnings, ih]
    | some ct =>
      cases hp : parseTs ct with
      | none => simp [buildEventsLoop, eventWarnings, hp, ih]
      | some parsed =>
        cases obm with
        | none => simp [buildEventsLoop, eventWarnings, hp, ih]
        | some bms =>
          cases bms with
          | nil => simp [buildEventsLoop, eventWarnings, hp, ih]
          | cons b bs => simp [buildEventsLoop, eventWarnings, hp, ih]

/-- Every candidate the market loop emits keeps its chosen options, which
number at least two. -/
theorem buildMarkets_options (sportKey appSlug league eventName eventKey startTime
    eventId : String) (bms : List RawBookmaker) :
    ∀ markets c, c ∈ buildMarkets sportKey appSlug league eventName eventKey startTime
        eventId bms markets → 2 ≤ c.options.length := by
  intro markets
  induction markets with
  | nil => intro c hc; exact absurd hc (List.not_mem_nil c)
  | cons mk rest ih =>
    intro c hc
    simp only [buildMarkets] at hc
    split at hc
    · exact ih c hc
    · next hlen =>
        rcases List.mem_cons.mp hc with h | h
        · subst h
          simpa using Nat.le_of_not_lt hlen
        · exact ih c h

/-- Every candidate the event loop emits has at least two options. -/
theorem buildEventsLoop_options (parseTs : String → Option Int) (toUtcZ : Int → String)
    (sportKey appSlug fallbackLeague : String) (markets : List String) :
    ∀ events c, c ∈ (buildEventsLoop parseTs toUtcZ sportKey appSlug fallbackLeague markets
        events).1 → 2 ≤ c.options.length := by
  intro events
  induction events with
  | nil => intro c hc; exact absurd hc (List.not_mem_nil c)
  | cons e rest ih =>
    intro c hc
    obtain ⟨eid, oct, st, ht, aw, nm, obm⟩ := e
    cases oct with
    | none =>
      simp only [buildEventsLoop] at hc
      exact ih c hc
    | some ct =>
      cases hp : parseTs ct with
      | none =>
        simp only [buildEventsLoop, hp] at hc
        exact ih c hc
      | some parsed =>
        cases obm with
        | none =>
          simp only [buildEventsLoop, hp] at hc
          exact ih c hc
        | some bms =>
          cases bms with
          | nil =>
            simp only [buildEventsLoop, hp] at hc
            exact ih c hc
          | cons b bs =>
            simp only [buildEventsLoop, hp, List.mem_append] at hc
            rcases hc with h | h
            · exact buildMarkets_options _ _ _ _ _ _ _ _ markets c h
            · exact ih c h

/-- `keepFirstById` keeps only records of its input. -/
theorem keepFirst_mem : ∀ (seen : List String) (l : List CandidatePick) (c : CandidatePick),
    c ∈ keepFirstById seen l → c ∈ l := by
  intro seen l
  induction l generalizing seen with
  | nil => intro c hc; exact absurd hc (List.not_mem_nil c)
  | cons x rest ih =>
    intro c hc
    simp only [keepFirstById] at hc
    split at hc
    · exact List.mem_cons_of_mem x (ih seen c hc)
    · rcases List.mem_cons.mp hc with h | h
      · subst h; exact List.mem_cons_self c rest
      · exact List.mem_cons_of_mem x (ih _ c h)

/-- Deduplication keeps only records of its input. -/
theorem dedup_mem {l : List CandidatePick} {c : CandidatePick}
    (hc : c ∈ deduplicateCandidates l) : c ∈ l := by
  unfold deduplicateCandidates at hc
  have h1 := (pySorted_perm candLe _).mem_iff.mp hc
  have h2 := keepFirst_mem [] _ c h1
  exact (pySorted_perm dedupLe _).mem_iff.mp h2

/-- Reflexivity of the non-strict lexicographic order. -/
theorem lexLe_refl {lt : α → α → Bool} (hl : StrictLaws lt) (as : List α) :
    lexLe lt as as = true := by
  rcases lexLe_total hl as as with h | h <;> exact h

/-- What one bookmaker's collected options satisfy: each comes from an
outcome with a valid label, a convertible price and odds above 1.01. -/
theorem collect_mem (mk : String) :
    ∀ (outs : List RawOutcome) (seen : List String) (opt : CandidateOption),
      opt ∈ collectOptions mk outs seen →
      ∃ o ∈ outs, formatOutcomeLabel mk o = some opt.label ∧
        rawFieldFloat o.price = some opt.odds ∧
        qLeB opt.odds ⟨101, 100⟩ = false := by
  intro outs
  induction outs with
  | nil => intro seen opt h; exact absurd h (List.not_mem_nil opt)
  | cons o rest ih =>
    intro seen opt h
    simp only [collectOptions] at h
    split at h
    · obtain ⟨o', ho', hp⟩ := ih seen opt h
      exact ⟨o', List.mem_cons_of_mem o ho', hp⟩
    · next label hfmt =>
      split at h
      · obtain ⟨o', ho', hp⟩ := ih seen opt h
        exact ⟨o', List.mem_cons_of_mem o ho', hp⟩
      · next odds hpr =>
        split at h
        · obtain ⟨o', ho', hp⟩ := ih seen opt h
          exact ⟨o', List.mem_cons_of_mem o ho', hp⟩
        · next hle =>
          split at h
          · obtain ⟨o', ho', hp⟩ := ih seen opt h
            exact ⟨o', List.mem_cons_of_mem o ho', hp⟩
          · next hseen =>
            rcases List.mem_cons.mp h with he | he
            · subst he
              exact ⟨o, List.mem_cons_self o rest, hfmt, hpr, by simpa using hle⟩
            · obtain ⟨o', ho', hp⟩ := ih _ opt he
              exact ⟨o', List.mem_cons_of_mem o ho', hp⟩

/-- Collected labels avoid the seen set. -/
theorem collect_notin_seen (mk : String) :
    ∀ (outs : List RawOutcome) (seen : List String) (opt : CandidateOption),
      opt ∈ collectOptions mk outs seen → seen.contains opt.label = false := by
  intro outs
  induction outs with
  | nil => intro seen opt h; exact absurd h (List.not_mem_nil opt)
  | cons o rest ih =>
    intro seen opt h
    simp only [collectOptions] at h
    split at h
    · exact ih seen opt h
    · next label hfmt =>
      split at h
      · exact ih seen opt h
      · next odds hpr =>
        split at h
        · exact ih seen opt h
        · next hle =>
          split at h
          · exact ih seen opt h
          · next hseen =>
            rcases List.mem_cons.mp h with he | he
            · subst he
              simpa using hseen
            · have := ih (label :: seen) opt he
              simp only [List.contains_cons, Bool.or_eq_false_iff] at this
              exact this.2

/-- Duplicate labels are collapsed: collected labels are pairwise distinct. -/
theorem collect_labels_nodup (mk : String) :
    ∀ (outs : List RawOutcome) (seen : List String),
      (collectOptions mk outs seen).Pairwise (fun a b => a.label ≠ b.label) := by
  intro outs
  induction outs with
  | nil => intro seen; exact List.Pairwise.nil
  | cons o rest ih =>
    intro seen
    simp only [collectOptions]
    split
    · exact ih seen
    · next label hfmt =>
      split
      · exact ih seen
      · next odds hpr =>
        split
        · exact ih seen
        · next hle =>
          split
          · exact ih seen
          · next hseen =>
            rw [List.pairwise_cons]
            refine ⟨?_, ih (label :: seen)⟩
            intro b hb heq
            have hmem := collect_notin_seen mk rest (label :: seen) b hb
            simp only [List.contains_cons, Bool.or_eq_false_iff] at hmem
            exact absurd (by simpa using heq.symm) (by simpa using hmem.1)

/-- First occurrence wins: an outcome with a valid label (not already
collapsed into the seen set), a convertible price and odds above 1.01
contributes an option with its label. -/
theorem collect_complete (mk : String) :
    ∀ (outs : List RawOutcome) (seen : List String) (o : RawOutcome),
      o ∈ outs → ∀ (l : String) (q : PyF),
      formatOutcomeLabel mk o = some l → rawFieldFloat o.price = some q →
      qLeB q ⟨101, 100⟩ = false → seen.contains l = false →
      ∃ opt ∈ collectOptions mk outs seen, opt.label = l := by
  intro outs
  induction outs with
  | nil => intro seen o ho; exact absurd ho (List.not_mem_nil o)
  | cons o' rest ih =>
    intro seen o ho l q hfmt hpr hgt hseenl
    simp only [collectOptions]
    split
    · next hfmt' =>
      have hne : o ∈ rest := by
        rcases List.mem_cons.mp ho with he | he
        · subst he; rw [hfmt] at hfmt'; exact absurd hfmt' (by simp)
        · exact he
      exact ih seen o hne l q hfmt hpr hgt hseenl
    · next label' hfmt' =>
      split
      · next hpr' =>
        have hne : o ∈ rest := by
          rcases List.mem_cons.mp ho with he | he
          · subst he; rw [hpr] at hpr'; exact absurd hpr' (by simp)
          · exact he
        exact ih seen o hne l q hfmt hpr hgt hseenl
      · next odds' hpr' =>
        split
        · next hle' =>
          have hne : o ∈ rest := by
            rcases List.mem_cons.mp ho with he | he
            · subst he
              rw [hpr] at hpr'
              obtain rfl : q = odds' := Option.some.inj hpr'
              rw [hgt] at hle'
              exact absurd hle' (by simp)
            · exact he
          exact ih seen o hne l q hfmt hpr hgt hseenl
        · next hle' =>
          split
          · next hseen' =>
            have hne : o ∈ rest := by
              rcases List.mem_cons.mp ho with he | he
              · subst he
                rw [hfmt] at hfmt'
                obtain rfl : l = label' := Option.some.inj hfmt'
                rw [hseenl] at hseen'
                exact absurd hseen' (by simp)
              · exact he
            exact ih seen o hne l q hfmt hpr hgt hseenl
          · next hseen' =>
            by_cases hll : label' = l
            · subst hll
              exact ⟨⟨label', odds'⟩, List.mem_cons_self _ _, rfl⟩
            · have hne : o ∈ rest := by
                rcases List.mem_cons.mp ho with he | he
                · subst he
                  rw [hfmt] at hfmt'
                  exact absurd (Option.some.inj hfmt') (fun hh => hll hh.symm)
                · exact he
              have hstill : (label' :: seen).contains l = false := by
                have h1 : (l == label') = false :=
                  beq_eq_false_iff_ne.mpr (fun hh => hll hh.symm)
                simp only [List.contains_cons, Bool.or_eq_false_iff]
                exact ⟨h1, hseenl⟩
              obtain ⟨opt, hopt, hl⟩ := ih (label' :: seen) o hne l q hfmt hpr hgt hstill
              exact ⟨opt, List.mem_cons_of_mem _ hopt, hl⟩

/-- The bookmaker key order is total. -/
theorem bookmakerLe_total (a b : RawBookmaker) :
    bookmakerSortLe a b = true ∨ bookmakerSortLe b a = true :=
  lexLe_total strLt_laws _ _

/-- The bookmaker key order is transitive. -/
theorem bookmakerLe_trans (a b c : RawBookmaker) (h₁ : bookmakerSortLe a b = true)
    (h₂ : bookmakerSortLe b c = true) : bookmakerSortLe a c = true :=
  lexLe_trans strLt_laws _ _ _ h₁ h₂

/-- When no bookmaker qualifies, the loop returns no bookmaker and no options. -/
theorem chooseLoop_none (mk : String) :
    ∀ l : List RawBookmaker, (∀ b ∈ l, (bookmakerOptions mk b).length < 2) →
      chooseLoop mk l = (none, []) := by
  intro l
  induction l with
  | nil => intro _; rfl
  | cons b rest ih =>
    intro h
    have hb := h b (List.mem_cons_self b rest)
    simp only [chooseLoop]
    rw [if_neg (by omega)]
    exact ih (fun b' hb' => h b' (List.mem_cons_of_mem b hb'))

/-- On a list sorted by bookmaker key, the loop's nonempty answer is the
block of a qualifying bookmaker that is minimal in key order among all
qualifying bookmakers of the list. -/
theorem chooseLoop_spec (mk : String) :
    ∀ l : List RawBookmaker, l.Pairwise (fun a b => bookmakerSortLe a b = true) →
      2 ≤ (chooseLoop mk l).2.length →
      ∃ b ∈ l, chooseLoop mk l = (pyBookmakerKey b.key, bookmakerOptions mk b) ∧
        2 ≤ (bookmakerOptions mk b).length ∧
        ∀ b' ∈ l, 2 ≤ (bookmakerOptions mk b').length → bookmakerSortLe b b' = true := by
  intro l
  induction l with
  | nil => intro _ h2; simp [chooseLoop] at h2
  | cons b rest ih =>
    intro hpw h2
    rw [List.pairwise_cons] at hpw
    by_cases hq : 2 ≤ (bookmakerOptions mk b).length
    · refine ⟨b, List.mem_cons_self b rest, ?_, hq, ?_⟩
      · simp only [chooseLoop]
        rw [if_pos hq]
      · intro b' hb' _
        rcases List.mem_cons.mp hb' with rfl | hmem
        · exact lexLe_refl strLt_laws _
        · exact hpw.1 b' hmem
    · have hcl : chooseLoop mk (b :: rest) = chooseLoop mk rest := by
        simp only [chooseLoop]
        rw [if_neg hq]
      rw [hcl] at h2 ⊢
      obtain ⟨b0, hb0, heq, hq0, hmin⟩ := ih hpw.2 h2
      refine ⟨b0, List.mem_cons_of_mem b hb0, heq, hq0, ?_⟩
      intro b' hb' hq'
      rcases List.mem_cons.mp hb' with rfl | hmem
      · exact absurd hq' hq
      · exact hmin b' hmem hq'

/-- C5 — amended.  `choose_market_options` picks exactly one bookmaker's
block — the key-minimal one among those offering at least two valid
outcomes, and nothing when none qualifies; a collected outcome is exactly
one with a non-empty name, a convertible price and odds above 1.01, with
duplicate labels collapsed keeping the first occurrence.  The correction:
an (event, market) pair whose chosen options number fewer than two is
dropped SILENTLY — `build_candidates`' warnings are exactly the event-level
warnings (missing/invalid `commence_time`, missing bookmakers), and every
emitted candidate has at least two options. -/
theorem claim_C5 :
    (∀ (bms : List RawBookmaker) (mk : String),
      ((∀ b ∈ bms, (bookmakerOptions mk b).length < 2) →
        chooseMarketOptions bms mk = (none, [])) ∧
      (2 ≤ (chooseMarketOptions bms mk).2.length →
        ∃ b ∈ bms, chooseMarketOptions bms mk = (pyBookmakerKey b.key, bookmakerOptions mk b) ∧
          2 ≤ (bookmakerOptions mk b).length ∧
          ∀ b' ∈ bms, 2 ≤ (bookmakerOptions mk b').length → bookmakerSortLe b b' = true)) ∧
    (∀ (mk : String) (outs : List RawOutcome),
      (∀ opt ∈ collectOptions mk outs [], ∃ o ∈ outs,
        formatOutcomeLabel mk o = some opt.label ∧ rawFieldFloat o.price = some opt.odds ∧
          qLeB opt.odds ⟨101, 100⟩ = false) ∧
      (collectOptions mk outs []).Pairwise (fun a b => a.label ≠ b.label) ∧
      (∀ o ∈ outs, ∀ (l : String) (q : PyF), formatOutcomeLabel mk o = some l →
        rawFieldFloat o.price = some q → qLeB q ⟨101, 100⟩ = false →
        ∃ opt ∈ collectOptions mk outs [], opt.label = l)) ∧
    (∀ (parseTs : String → Option Int) (toUtcZ : Int → String) (rawEvents : List RawEvent)
        (sportKey appSlug fallbackLeague : String) (markets : List String),
      (buildCandidates parseTs toUtcZ rawEvents sportKey appSlug fallbackLeague markets).2 =
        eventWarnings parseTs toUtcZ sportKey (pySorted rawEventSortLe rawEvents) ∧
      ∀ c ∈ (buildCandidates parseTs toUtcZ rawEvents sportKey appSlug fallbackLeague
          markets).1, 2 ≤ c.options.length) := by
  refine ⟨?_, ?_, ?_⟩
  · intro bms mk
    constructor
    · intro hall
      unfold chooseMarketOptions
      exact chooseLoop_none mk _
        (fun b hb => hall b ((pySorted_perm bookmakerSortLe bms).mem_iff.mp hb))
    · intro h2
      unfold chooseMarketOptions at h2 ⊢
      obtain ⟨b, hb, heq, hq, hmin⟩ := chooseLoop_spec mk _
        (pySorted_sorted bookmakerSortLe bookmakerLe_total bookmakerLe_trans bms) h2
      exact ⟨b, (pySorted_perm bookmakerSortLe bms).mem_iff.mp hb, heq, hq,
        fun b' hb' hq' => hmin b' ((pySorted_perm bookmakerSortLe bms).mem_iff.mpr hb') hq'⟩
  · intro mk outs
    exact ⟨collect_mem mk outs [], collect_labels_nodup mk outs [],
      fun o ho l q h1 h2 h3 => collect_complete mk outs [] o ho l q h1 h2 h3 rfl⟩
  · intro parseTs toUtcZ rawEvents sportKey appSlug fallbackLeague markets
    constructor
    · simp only [buildCandidates]
      exact buildEventsLoop_warnings parseTs toUtcZ sportKey appSlug fallbackLeague markets _
    · intro c hc
      simp only [buildCandidates] at hc
      exact buildEventsLoop_options parseTs toUtcZ sportKey appSlug fallbackLeague markets _ c
        (dedup_mem hc)

/-- C5 — counterexample to the original wording.  The lone bookmaker's
market block yields exactly one valid outcome — fewer than two — so the
(event, market) candidate is dropped, yet `build_candidates` emits NO
warning: its output is `([], [])`, refuting "dropped with a warning". -/
theorem claim_C5_counterexample :
    (bookmakerOptions "h2h" cexRawBookmaker).length = 1 ∧
    buildCandidates (fun _ => some 0) (fun _ => "2026-02-10T18:00:00Z") [cexRawEvent]
      "soccer_spain_la_liga" "soccer" "La Liga" ["h2h"] = ([], []) :=
  ⟨rfl, rfl⟩

end SportsRank
